import Mathlib

/-!
Verification of the forum-image-scraper repository's concurrent deduplicating
download pipeline against its specification.

The two Python sources (src/forum-image-scraper.py, src/google-images-scraper.py)
are shallowly embedded below.  External effects (the HTTP fetch performed by
`requests.Session.get`, the PIL `Image.open` decode, the directory listing, the
HTML scrape producing per-page candidate URLs, the md5-based identifier, and the
folder-path derivation that the spec declares out of scope) enter the model as
explicit inputs: an `Env` of oracles plus per-call fetch/decode results.
Machine strings are Lean `String`s; Python-specific string operations
(`str.split('_')`, `str.replace`, `str.endswith`, substring `in`) are modelled
on the underlying character lists.  The worker pool's `as_completed` yields
outcomes in a nondeterministic order; the model processes a page's submitted
tasks in submission order, one linearization of that nondeterminism (the
properties proved about it are insensitive to the completion order: they speak
about the resulting sets, counts and per-row contents).
-/

namespace Scraper

/-- HTTP response to an image request: status code and raw body bytes
(result of `session.get` as consumed by `download_image`). -/
structure HttpResponse where
  status_code : Nat
  content : List Nat
deriving DecidableEq

/-- Terminal status tag of one download attempt (the first component of
`download_image`'s returned triple). -/
inductive Status where
  | success
  | too_small
  | failed
  | error
deriving DecidableEq

/-- One `(status, filename, message)` triple as returned by `download_image`;
the numeric byte-count payload of `success` is recorded via `toString`, as the
callers do when they display or log it. -/
structure Outcome where
  status : Status
  filename : String
  info : String
deriving DecidableEq

/-- Record of one file written to disk by `download_image`: destination folder,
filename and bytes.  The identifier used to build the filename is carried
alongside for specification purposes. -/
structure WrittenFile where
  folder : String
  filename : String
  url_hash : String
  content : List Nat
deriving DecidableEq

/-- Python's substring test `pat in s`: `pat` occurs contiguously in `s`. -/
def strContains (s pat : String) : Bool := decide (pat.data <:+: s.data)

/-- Python's `s.endswith(suffix)`. -/
def pyEndsWith (s suffix : String) : Bool := decide (suffix.data <:+ s.data)

/-- Python's `s.startswith(p)`. -/
def pyStartsWith (s p : String) : Bool := decide (p.data <+: s.data)

/-- Python's `s.lower()`, modelled character by character (the URLs involved
are ASCII, where this agrees with `str.lower`). -/
def pyLower (s : String) : String := String.mk (s.data.map Char.toLower)

/-- `download_image` lines 26-27 (forum scraper): a URL is treated as SVG when
its lowercased text ends with `.svg` or contains `.svg?`. -/
def isSvgUrl (url : String) : Bool :=
  pyEndsWith (pyLower url) ".svg" || strContains (pyLower url) ".svg?"

/-- Extension derivation of the forum scraper (`ext = '.svg' if is_svg else '.jpg'`). -/
def imageExt (url : String) : String := if isSvgUrl url then ".svg" else ".jpg"

/-- Destination filename `p{page}_{url_hash}{ext}` (forum scraper line 28). -/
def imageFilename (page : Int) (url_hash : String) (url : String) : String :=
  "p" ++ toString page ++ "_" ++ url_hash ++ imageExt url

/-- The dimension check of `download_image` (forum scraper lines 35-42, the
google variant's lines 52-59 verbatim): performed only for raster URLs with a
configured minimum; yields the observed dimensions when they fall below a
configured positive minimum, and `none` (no rejection) otherwise — in
particular when the decode raised (`decodeRes = none`). -/
def checkDims (is_svg : Bool) (minWidth minHeight : Int)
    (decodeRes : Option (Nat × Nat)) : Option (Nat × Nat) :=
  if ¬ is_svg ∧ (minWidth > 0 ∨ minHeight > 0) then
    match decodeRes with
    | some (width, height) =>
      if (minWidth > 0 ∧ (width : Int) < minWidth) ∨
         (minHeight > 0 ∧ (height : Int) < minHeight) then
        some (width, height)
      else none
    | none => none
  else none

/-- Shallow embedding of `download_image` (src/forum-image-scraper.py lines
23-49).  The two external effects are passed in: `fetch` is the result of
`session.get(url)` (`Except.error` = the request raised), and `decodeRes` is
what `Image.open` would yield on the fetched body (`none` = the decode raised).
Returns the outcome triple together with the file written, if any. -/
def download_image (url : String) (page : Int) (folder : String) (url_hash : String)
    (minWidth minHeight : Int) (fetch : Except String HttpResponse)
    (decodeRes : Option (Nat × Nat)) : Outcome × Option WrittenFile :=
  let is_svg := isSvgUrl url
  let ext := if is_svg then ".svg" else ".jpg"
  let filename := "p" ++ toString page ++ "_" ++ url_hash ++ ext
  match fetch with
  | Except.error e => (⟨Status.error, filename, e⟩, none)
  | Except.ok img_response =>
    if img_response.status_code = 200 ∧ img_response.content.length > 1000 then
      match checkDims is_svg minWidth minHeight decodeRes with
      | some (width, height) =>
        (⟨Status.too_small, filename, toString width ++ "x" ++ toString height⟩, none)
      | none =>
        (⟨Status.success, filename, toString img_response.content.length⟩,
         some ⟨folder, filename, url_hash, img_response.content⟩)
    else (⟨Status.failed, filename, "Invalid response"⟩, none)

/-- Extension derivation of the google-images variant
(src/google-images-scraper.py lines 32-43): `.svg`, `.png` and `.gif` are each
recognized, everything else defaults to `.jpg` (the source binds `url.lower()`
once; it is re-applied here at each use, which is the same value). -/
def g_imageExt (url : String) : String :=
  if pyEndsWith (pyLower url) ".svg" || strContains (pyLower url) ".svg?" then ".svg"
  else if pyEndsWith (pyLower url) ".png" || strContains (pyLower url) ".png?" then ".png"
  else if pyEndsWith (pyLower url) ".gif" || strContains (pyLower url) ".gif?" then ".gif"
  else ".jpg"

/-- One page of the external Page Source (spec section 6): the raw page text
(`response.text`) and the candidate URLs the out-of-scope HTML scrape extracts
from it (already restricted to http/https and deduplicated, since the source
collects them in a Python `set`). -/
structure PageData where
  text : String
  urls : List String

/-- External collaborators entering the model as oracles: `pageFetch` performs
the page-listing request (indexed by the page number substituted into the page
URL template; `none` is the plain thread URL of single-page mode) and the HTML
scrape; `net` and `decode` give each image URL's fetch and `Image.open`
results; `hash` is the md5-hex-truncated identifier `hashlib.md5(url).hexdigest()[:8]`;
`folderOf` is the out-of-scope folder-path derivation of lines 159-183. -/
structure Env where
  pageFetch : Option Int → Except String PageData
  net : String → Except String HttpResponse
  decode : String → Option (Nat × Nat)
  hash : String → String
  folderOf : String → String

/-- Python `set.add` on the identifier set, modelled as append-if-absent. -/
def insertHash (s : List String) (h : String) : List String :=
  if h ∈ s then s else s ++ [h]

/-- The mutable per-run state of `process_thread` (forum scraper lines 186-192;
the google variant's lines 324-328 have the identical shape): the identifier
set, the display rows, the csv audit rows, and the two skip tallies. -/
structure RunState where
  downloaded_hashes : List String
  table_rows : List (String × String × String)
  csv_rows : List (String × String × String × String)
  skipped_count : Nat
  too_small_count : Nat
deriving DecidableEq

/-- State update for one completed download outcome (forum scraper lines
305-317; the google variant's lines 387-399 are identical): `success` inserts
the identifier and appends a table and a csv row, `too_small` bumps its tally
and logs only a csv row, `failed`/`error` append a table and a csv row. -/
def recordOutcome (st : RunState) (url : String) (url_hash : String) (o : Outcome) : RunState :=
  match o.status with
  | Status.success =>
    { st with downloaded_hashes := insertHash st.downloaded_hashes url_hash,
              table_rows := st.table_rows ++ [(o.filename, o.info, "✓")],
              csv_rows := st.csv_rows ++ [(url, o.info, o.filename, "✓")] }
  | Status.too_small =>
    { st with too_small_count := st.too_small_count + 1,
              csv_rows := st.csv_rows ++ [(url, "", o.filename, "too_small " ++ o.info)] }
  | Status.failed =>
    { st with table_rows := st.table_rows ++ [(o.filename, "", "failed " ++ o.info)],
              csv_rows := st.csv_rows ++ [(url, "", o.filename, "failed " ++ o.info)] }
  | Status.error =>
    { st with table_rows := st.table_rows ++ [(o.filename, "", "error " ++ o.info)],
              csv_rows := st.csv_rows ++ [(url, "", o.filename, "error " ++ o.info)] }

/-- Python's `f"{idx:04d}"`: decimal, left-padded with zeros to width 4. -/
def pad4 (n : Nat) : String :=
  let s := toString n
  String.mk (List.replicate (4 - s.length) '0') ++ s

/-- Shallow embedding of the google variant's `download_image`
(src/google-images-scraper.py lines 29-66): same fetch/validate/persist logic
as the forum scraper, but with the richer extension derivation, the
`img_{idx:04d}_{hash}{ext}` filename, and the error message truncated to 100
characters. -/
def g_download_image (url : String) (index : Nat) (folder : String) (url_hash : String)
    (minWidth minHeight : Int) (fetch : Except String HttpResponse)
    (decodeRes : Option (Nat × Nat)) : Outcome × Option WrittenFile :=
  let is_svg := isSvgUrl url
  let ext := g_imageExt url
  let filename := "img_" ++ pad4 index ++ "_" ++ url_hash ++ ext
  match fetch with
  | Except.error e => (⟨Status.error, filename, String.mk (e.data.take 100)⟩, none)
  | Except.ok img_response =>
    if img_response.status_code = 200 ∧ img_response.content.length > 1000 then
      match checkDims is_svg minWidth minHeight decodeRes with
      | some (width, height) =>
        (⟨Status.too_small, filename, toString width ++ "x" ++ toString height⟩, none)
      | none =>
        (⟨Status.success, filename, toString img_response.content.length⟩,
         some ⟨folder, filename, url_hash, img_response.content⟩)
    else (⟨Status.failed, filename, "Invalid response"⟩, none)

/-- One iteration of the google variant's extraction loop for a successfully
extracted full-image URL (src/google-images-scraper.py lines 346-407): the
duplicate check either records an `already downloaded` table AND csv row while
bumping the skip tally (lines 358-371), or submits the download.  A submitted
download is modelled as completing immediately, its outcome handled by the
lines 379-399 polling block (one linearization of the pool's nondeterminism). -/
def g_step (env : Env) (minWidth minHeight : Int) (folder : String)
    (st : RunState) (idx : Nat) (src : String) : RunState :=
  let url_hash := env.hash src
  if url_hash ∈ st.downloaded_hashes then
    let filename := "img_" ++ pad4 idx ++ "_" ++ url_hash
    { st with skipped_count := st.skipped_count + 1,
              table_rows := st.table_rows ++ [(filename, "existing", "already downloaded")],
              csv_rows := st.csv_rows ++ [(src, "", filename, "already downloaded")] }
  else
    let r := g_download_image src idx folder url_hash minWidth minHeight (env.net src) (env.decode src)
    recordOutcome st src url_hash r.1

/-- Python's single-character `str.split(sep)` on the character level:
maximal runs between separator occurrences, keeping empty pieces. -/
def splitOnChar (c : Char) : List Char → List (List Char)
  | [] => [[]]
  | a :: rest =>
    match splitOnChar c rest with
    | [] => [[]]
    | s :: ss => if a = c then [] :: s :: ss else (a :: s) :: ss

/-- Worker for Python's `str.replace(pat, rep)` (non-overlapping, left to
right) on the character level: while `skip > 0` the characters still covered
by the last match are consumed; at `skip = 0` a match of `pat` emits `rep` and
schedules the rest of the match for consumption, any other character is
copied.  An empty pattern copies the string (never used with one). -/
def strReplaceAux (pat rep : List Char) : Nat → List Char → List Char
  | _, [] => []
  | k, a :: s =>
    match k with
    | Nat.succ k' => strReplaceAux pat rep k' s
    | 0 =>
      if pat ≠ [] ∧ pat.isPrefixOf (a :: s) then
        rep ++ strReplaceAux pat rep (pat.length - 1) s
      else a :: strReplaceAux pat rep 0 s

/-- Python's `str.replace(pat, rep)` on the character level. -/
def strReplace (pat rep s : List Char) : List Char :=
  strReplaceAux pat rep 0 s

/-- Python `s.split(sep)` for a single-character separator. -/
def pySplit (s : String) (c : Char) : List String :=
  (splitOnChar c s.data).map String.mk

/-- Python `s.replace(pat, rep)`. -/
def pyReplace (s pat rep : String) : String :=
  String.mk (strReplace pat.data rep.data s.data)

/-- One filename's contribution to the Identity Index seeding (forum scraper
lines 196-202): filenames ending in `.jpg` or `.svg` whose split on `_` has
exactly two parts contribute the second part with `.jpg`/`.svg` stripped as
the recovered identifier; everything else is ignored. -/
def seedStep (acc : List String) (existing_file : String) : List String :=
  if pyEndsWith existing_file ".jpg" || pyEndsWith existing_file ".svg" then
    match pySplit existing_file '_' with
    | [_, p1] => insertHash acc (pyReplace (pyReplace p1 ".jpg" "") ".svg" "")
    | _ => acc
  else acc

/-- The Identity Index seeding (forum scraper lines 195-202): scan the
existing filenames and collect the recovered identifiers. -/
def seedHashes (listing : List String) : List String :=
  listing.foldl seedStep []

/-- Ghost record of one submitted download: candidate URL, its identifier, the
produced outcome, and the file written, if any. -/
structure TaskRecord where
  url : String
  url_hash : String
  outcome : Outcome
  written : Option WrittenFile
deriving DecidableEq

/-- The per-page filtering step (forum scraper lines 284-293): iterate the
page's candidate URLs; one whose identifier is already in the index bumps the
skip tally, the rest become the submitted task list, in order. -/
def prepareTasks (env : Env) (st : RunState) : List String → RunState × List String
  | [] => (st, [])
  | url :: rest =>
    if env.hash url ∈ st.downloaded_hashes then
      prepareTasks env { st with skipped_count := st.skipped_count + 1 } rest
    else
      let r := prepareTasks env st rest
      (r.1, url :: r.2)

/-- Draining the worker pool for one page (forum scraper lines 296-327), as
the submission-order linearization of `as_completed`: each task runs
`download_image` and its outcome updates the run state via `recordOutcome`. -/
def drainTasks (env : Env) (page_label : Int) (folder : String)
    (minWidth minHeight : Int) (st : RunState) : List String → RunState × List TaskRecord
  | [] => (st, [])
  | url :: rest =>
    let h := env.hash url
    let r := download_image url page_label folder h minWidth minHeight
        (env.net url) (env.decode url)
    let rest' := drainTasks env page_label folder minWidth minHeight
        (recordOutcome st url h r.1) rest
    (rest'.1, TaskRecord.mk url h r.1 r.2 :: rest'.2)

/-- The configuration slice of one `process_thread` invocation that the page
loop reads (the page-URL templating strings and multiplier are absorbed into
the `Env.pageFetch` page index, per spec section 6). -/
structure Ctx where
  usePagination : Bool
  startPage : Int
  endPage : Int
  folder : String
  minWidth : Int
  minHeight : Int

/-- Open-ended (infinite) pagination mode selection (forum scraper lines
206-212): pagination is on and `endPage == 0 or endPage < startPage`. -/
def Ctx.infinite (ctx : Ctx) : Bool :=
  ctx.usePagination && (ctx.endPage == 0 || decide (ctx.endPage < ctx.startPage))

/-- Page selection at the top of the while loop (forum scraper lines 219-235):
`none` = break, `some none` = the single page of non-pagination mode,
`some (some p)` = page `p`. -/
def pageSelect (ctx : Ctx) (current_page : Int) : Option (Option Int) :=
  if ¬ ctx.usePagination then
    if current_page > ctx.startPage then none else some none
  else if ctx.infinite then some (some current_page)
  else if current_page > ctx.endPage then none else some (some current_page)

/-- `page_label` (forum scraper lines 225, 228, 233): 1 for the single page of
non-pagination mode, otherwise the page number. -/
def labelOf : Option Int → Int
  | none => 1
  | some p => p

/-- Loop-carried driver state: the run state, the page counter, and the last
successfully fetched raw page text (open-ended mode only). -/
structure DriverState where
  st : RunState
  current_page : Int
  previous_html : Option String

/-- Trace of what the page loop did, one entry per iteration: a page-listing
fetch that raised, the open-ended-mode stop on repeated content, or a page
processed with the candidate URLs found on it and the submitted tasks'
records. -/
inductive PageTrace where
  | fetchFailed (page : Option Int) (msg : String)
  | repeatStop (page : Option Int)
  | processed (page : Option Int) (page_label : Int) (candidates : List String)
      (recs : List TaskRecord)
deriving DecidableEq

/-- The page loop of `process_thread` (forum scraper lines 216-348), with an
explicit fuel bound on the number of iterations (the source's while loop is
unbounded in open-ended mode; every theorem below supplies enough fuel).
Returns the final driver state and the per-iteration trace. -/
def runLoop (env : Env) (ctx : Ctx) : Nat → DriverState → DriverState × List PageTrace
  | 0, ds => (ds, [])
  | fuel + 1, ds =>
    match pageSelect ctx ds.current_page with
    | none => (ds, [])
    | some page =>
      match env.pageFetch page with
      | Except.error msg =>
        let r := runLoop env ctx fuel ⟨ds.st, ds.current_page + 1, ds.previous_html⟩
        (r.1, PageTrace.fetchFailed page msg :: r.2)
      | Except.ok d =>
        if ctx.infinite ∧ ds.previous_html = some d.text then
          (ds, [PageTrace.repeatStop page])
        else
          let previous_html' := if ctx.infinite then some d.text else none
          let p1 := prepareTasks env ds.st d.urls
          let p2 := drainTasks env (labelOf page) ctx.folder ctx.minWidth ctx.minHeight p1.1 p1.2
          let r := runLoop env ctx fuel ⟨p2.1, ds.current_page + 1, previous_html'⟩
          (r.1, PageTrace.processed page (labelOf page) d.urls p2.2 :: r.2)

/-- All task records over a trace, in order. -/
def outcomesOf (tr : List PageTrace) : List TaskRecord :=
  tr.foldr
    (fun t acc =>
      match t with
      | PageTrace.processed _ _ _ recs => recs ++ acc
      | _ => acc) []

/-- All files written over a trace, in order. -/
def writesOf (tr : List PageTrace) : List WrittenFile :=
  (outcomesOf tr).filterMap (fun r => r.written)

/-- All candidate URLs discovered on the processed pages of a trace. -/
def candidatesOf (tr : List PageTrace) : List String :=
  tr.foldr
    (fun t acc =>
      match t with
      | PageTrace.processed _ _ cands _ => cands ++ acc
      | _ => acc) []

/-- The pages for which a listing request was issued, one per iteration. -/
def attemptsOf (tr : List PageTrace) : List (Option Int) :=
  tr.map
    (fun t =>
      match t with
      | PageTrace.fetchFailed p _ => p
      | PageTrace.repeatStop p => p
      | PageTrace.processed p _ _ _ => p)

/-- Result of one `process_thread` call: the returned quadruple plus the
observable effects (directories created, page fetches attempted, files
written) and the full iteration trace. -/
structure ThreadResult where
  table_rows : List (String × String × String)
  csv_rows : List (String × String × String × String)
  skipped_count : Nat
  too_small_count : Nat
  dirsCreated : List String
  pageAttempts : List (Option Int)
  filesWritten : List WrittenFile
  trace : List PageTrace
deriving DecidableEq

/-- Shallow embedding of `process_thread` (src/forum-image-scraper.py lines
153-351).  `dirListing` is the destination directory's contents at entry (the
`os.listdir` result; `[]` for a missing or empty directory); `fuel` bounds the
page loop.  A `threadUrl` without an http/https scheme returns the empty
result before any directory creation, page fetch or file write (lines
155-157). -/
def process_thread (env : Env) (threadUrl : String) (startPage endPage : Int)
    (minWidth minHeight : Int) (usePagination : Bool) (dirListing : List String)
    (fuel : Nat) : ThreadResult :=
  if ¬ (pyStartsWith threadUrl "http://" || pyStartsWith threadUrl "https://") then
    ⟨[], [], 0, 0, [], [], [], []⟩
  else
    let folder := env.folderOf threadUrl
    let seeded := seedHashes dirListing
    let ctx : Ctx := ⟨usePagination, startPage, endPage, folder, minWidth, minHeight⟩
    let r := runLoop env ctx fuel ⟨⟨seeded, [], [], 0, 0⟩, startPage, none⟩
    ⟨r.1.st.table_rows, r.1.st.csv_rows, r.1.st.skipped_count, r.1.st.too_small_count,
     [folder], attemptsOf r.2, writesOf r.2, r.2⟩

/-- A well-formed content identifier: no underscore and no dot among its
characters.  `hashlib.md5(...).hexdigest()[:8]` always satisfies this (its
output is lowercase hex). -/
def validHashStr (h : String) : Prop := ∀ c ∈ h.data, c ≠ '_' ∧ c ≠ '.'

instance validHashStr.dec (h : String) : Decidable (validHashStr h) :=
  List.decidableBAll _ _

/-- Concrete test fixture: two candidate URLs on every page, both fetching a
1001-byte body with status 200, identity as the identifier function. -/
def wEnvA : Env :=
  ⟨fun _ => Except.ok ⟨"t", ["http://a/x", "http://a/y"]⟩,
   fun _ => Except.ok ⟨200, List.replicate 1001 0⟩,
   fun _ => none, fun u => u, fun _ => "dir"⟩

/-- Concrete test fixture: fixed range over pages 1-2. -/
def wCtxA : Ctx := ⟨true, 1, 2, "dir", 0, 0⟩

/-- Concrete test fixture: fresh driver state at page 1. -/
def wDsA : DriverState := ⟨⟨[], [], [], 0, 0⟩, 1, none⟩

/-- Concrete test fixture: one candidate URL per page, constant identifier. -/
def wEnvB : Env :=
  ⟨fun _ => Except.ok ⟨"t", ["http://a/x"]⟩,
   fun _ => Except.ok ⟨200, List.replicate 1001 0⟩,
   fun _ => none, fun _ => "h", fun _ => "dir"⟩

/-- Concrete test fixture: page family whose text first repeats at page 3. -/
def wPage (p : Int) : PageData := if p ≤ 1 then ⟨"t1", []⟩ else ⟨"t2", []⟩

/-- Concrete test fixture: page fetches serving `wPage`. -/
def wEnvC : Env :=
  ⟨fun op => match op with
    | some p => Except.ok (wPage p)
    | none => Except.ok ⟨"", []⟩,
   fun _ => Except.error "net", fun _ => none, fun u => u, fun _ => "dir"⟩

/-- Concrete test fixture: open-ended pagination from page 1 (`endPage = 0`). -/
def wCtxC : Ctx := ⟨true, 1, 0, "dir", 0, 0⟩

/-- Identifiers of the success outcomes among a list of task records. -/
def successHashes (recs : List TaskRecord) : List String :=
  (recs.filter fun r => decide (r.outcome.status = Status.success)).map fun r => r.url_hash

/-- Number of success outcomes carrying identifier `h` among the records. -/
def successCount (recs : List TaskRecord) (h : String) : Nat :=
  recs.countP fun r => decide (r.outcome.status = Status.success ∧ r.url_hash = h)

/-- The csv audit row logged for one completed outcome (forum scraper lines
305-317): url, byte size or empty, filename, status text. -/
def csvRowOf (url : String) (o : Outcome) : String × String × String × String :=
  match o.status with
  | Status.success => (url, o.info, o.filename, "✓")
  | Status.too_small => (url, "", o.filename, "too_small " ++ o.info)
  | Status.failed => (url, "", o.filename, "failed " ++ o.info)
  | Status.error => (url, "", o.filename, "error " ++ o.info)

/-- The status a given URL's download yields under `env` — page label, folder
and identifier only enter the filename, not the status (see
`download_image_status_irrel`). -/
def dlStatus (env : Env) (minWidth minHeight : Int) (url : String) : Status :=
  (download_image url 1 "" (env.hash url) minWidth minHeight
      (env.net url) (env.decode url)).1.status

/-- `n` consecutive integers from `s`. -/
def intRange (s : Int) (n : Nat) : List Int :=
  List.map (fun i : Nat => s + (i : Int)) (List.range n)

/-- The shape of a trace, one tag per iteration: 0 = page fetch failed,
1 = stopped on repeated content, 2 = page processed; paired with the page. -/
def traceTags (tr : List PageTrace) : List (Nat × Option Int) :=
  tr.map fun t =>
    match t with
    | PageTrace.fetchFailed p _ => (0, p)
    | PageTrace.repeatStop p => (1, p)
    | PageTrace.processed p _ _ _ => (2, p)

/-- Python `str.ljust`. -/
def pyLjust (s : String) (w : Nat) : String :=
  s ++ String.mk (List.replicate (w - s.length) ' ')

/-- Python `s[:n]`. -/
def pyTake (s : String) (n : Nat) : String := String.mk (s.data.take n)

/-- Python `c * n` on a single character. -/
def repChar (c : Char) (n : Nat) : String := String.mk (List.replicate n c)

/-- Column widths of the results table (`print_table` lines 110-124; the same
computation is repeated for the page footer at lines 335-344): fixed minimums
25/12/25 plus 10 of padding, any remaining width split between the filename
and status columns. -/
def colWidths (terminal_width : Int) : Nat × Nat × Nat :=
  let remaining : Int := terminal_width - 25 - 12 - 25 - (2 * 4 + 2)
  if remaining > 0 then
    ((25 + remaining / 2).toNat, 12, (25 + (remaining - remaining / 2)).toNat)
  else (25, 12, 25)

/-- One data row rendered (`print_table` lines 141-149): an empty filename or
size cell renders as the empty string, the filename and status are truncated
to their column widths, all three cells are left-justified between borders. -/
def renderRow (widths : Nat × Nat × Nat) (r : String × String × String) : String :=
  let file_str := if r.1 = "" then "" else pyTake r.1 widths.1
  let size_str := if r.2.1 = "" then "" else r.2.1
  let status_str := pyTake r.2.2 widths.2.2
  "║ " ++ pyLjust file_str widths.1 ++ " │ " ++ pyLjust size_str widths.2.1 ++ " │ "
    ++ pyLjust status_str widths.2.2 ++ " ║"

/-- Shallow embedding of `print_table` (src/forum-image-scraper.py lines
96-151) as the list of lines it prints.  With `print_header_only` it prints
the page banner (when a label is given) and the three-line table header and
returns; otherwise it prints the rows from `last_row_count` on.  The
`skip_header` flag is read by neither path, as in the source. -/
def print_table (rows : List (String × String × String)) (terminal_width : Int)
    (page_label : Option Int) (skip_header : Bool) (print_header_only : Bool)
    (last_row_count : Nat) : List String :=
  if rows.isEmpty ∧ ¬ print_header_only then []
  else
    let widths := colWidths terminal_width
    if print_header_only then
      (match page_label with
       | some pl =>
         ["\n" ++ repChar '═' 60, "Page " ++ toString pl ++ " Results:",
          repChar '─' 60 ++ "\n"]
       | none => [])
      ++ ["╔" ++ repChar '═' widths.1 ++ "═╤═" ++ repChar '═' widths.2.1 ++ "═╤═"
            ++ repChar '═' widths.2.2 ++ "╗",
          "║ " ++ pyLjust "Filename" widths.1 ++ " │ " ++ pyLjust "Size" widths.2.1
            ++ " │ " ++ pyLjust "Status" widths.2.2 ++ " ║",
          "╠" ++ repChar '═' widths.1 ++ "═╪═" ++ repChar '═' widths.2.1 ++ "═╪═"
            ++ repChar '═' widths.2.2 ++ "╣"]
    else
      (rows.drop last_row_count).map (renderRow widths)

/-- The incremental-render state of one page's `as_completed` loop (forum
scraper lines 261-264): the rows so far, whether the header was printed, the
rows-already-printed cursor, and the lines printed so far. -/
structure RenderState where
  rows : List (String × String × String)
  header_printed : Bool
  last_printed_count : Nat
  out : List String

/-- One completion's table update (forum scraper lines 305-327, with `main`'s
`page_callback` of lines 420-423 passing through to `print_table`): the
completed outcome contributes its table rows (none for `too_small`), then if
any rows exist so far, the header is printed once, followed by only the rows
past the cursor, and the cursor advances to the current row count. -/
def renderStep (terminal_width : Int) (page_label : Int)
    (rs : RenderState) (newRows : List (String × String × String)) : RenderState :=
  let rows := rs.rows ++ newRows
  if rows.isEmpty then ⟨rows, rs.header_printed, rs.last_printed_count, rs.out⟩
  else
    let headerOut :=
      if ¬ rs.header_printed then
        print_table rows terminal_width (some page_label) false true 0
      else []
    let rowsOut :=
      print_table rows terminal_width (some page_label) false false rs.last_printed_count
    ⟨rows, true, rows.length, rs.out ++ headerOut ++ rowsOut⟩

/-- A failed decode never rejects an item, whatever the configuration. -/
@[simp] theorem checkDims_none (is_svg : Bool) (minWidth minHeight : Int) :
    checkDims is_svg minWidth minHeight none = none := by
  simp [checkDims]

theorem mem_insertHash (s : List String) (h a : String) :
    a ∈ insertHash s h ↔ a ∈ s ∨ a = h := by
  by_cases hh : h ∈ s
  · simp only [insertHash, if_pos hh]
    exact ⟨Or.inl, fun x => x.elim id fun e => e ▸ hh⟩
  · simp [insertHash, hh]

@[simp] theorem recordOutcome_downloaded (st : RunState) (url h : String) (o : Outcome) :
    (recordOutcome st url h o).downloaded_hashes
      = if o.status = Status.success then insertHash st.downloaded_hashes h
        else st.downloaded_hashes := by
  cases hs : o.status <;> simp [recordOutcome, hs]

@[simp] theorem recordOutcome_csv (st : RunState) (url h : String) (o : Outcome) :
    (recordOutcome st url h o).csv_rows = st.csv_rows ++ [csvRowOf url o] := by
  cases hs : o.status <;> simp [recordOutcome, csvRowOf, hs]

@[simp] theorem recordOutcome_skipped (st : RunState) (url h : String) (o : Outcome) :
    (recordOutcome st url h o).skipped_count = st.skipped_count := by
  cases hs : o.status <;> simp [recordOutcome, hs]

theorem successHashes_cons (r : TaskRecord) (recs : List TaskRecord) :
    successHashes (r :: recs)
      = (if r.outcome.status = Status.success then [r.url_hash] else [])
          ++ successHashes recs := by
  by_cases hs : r.outcome.status = Status.success <;> simp [successHashes, hs]

theorem successHashes_append (l1 l2 : List TaskRecord) :
    successHashes (l1 ++ l2) = successHashes l1 ++ successHashes l2 := by
  simp [successHashes, List.filter_append]

theorem successCount_append (l1 l2 : List TaskRecord) (h : String) :
    successCount (l1 ++ l2) h = successCount l1 h + successCount l2 h := by
  simp [successCount, List.countP_append]

theorem prepareTasks_eq (env : Env) (st : RunState) (urls : List String) :
    prepareTasks env st urls
      = ({ st with skipped_count := st.skipped_count
             + (urls.filter fun u => decide (env.hash u ∈ st.downloaded_hashes)).length },
         urls.filter fun u => ! decide (env.hash u ∈ st.downloaded_hashes)) := by
  induction urls generalizing st with
  | nil => simp [prepareTasks]
  | cons u rest ih =>
    by_cases h : env.hash u ∈ st.downloaded_hashes
    · simp only [prepareTasks, if_pos h, ih]
      simp [h, List.filter_cons, RunState.mk.injEq]
      omega
    · simp only [prepareTasks, if_neg h, ih]
      simp [h, List.filter_cons]

theorem drainTasks_hash_map (env : Env) (l : Int) (f : String) (mw mh : Int)
    (st : RunState) (tasks : List String) :
    ((drainTasks env l f mw mh st tasks).2.map fun r => r.url_hash) = tasks.map env.hash := by
  induction tasks generalizing st with
  | nil => simp [drainTasks]
  | cons u rest ih => simp [drainTasks, ih]

theorem drainTasks_url_map (env : Env) (l : Int) (f : String) (mw mh : Int)
    (st : RunState) (tasks : List String) :
    ((drainTasks env l f mw mh st tasks).2.map fun r => r.url) = tasks := by
  induction tasks generalizing st with
  | nil => simp [drainTasks]
  | cons u rest ih => simp [drainTasks, ih]

theorem drainTasks_mem_rec (env : Env) (l : Int) (f : String) (mw mh : Int)
    (st : RunState) (tasks : List String) :
    ∀ r ∈ (drainTasks env l f mw mh st tasks).2,
      r.url ∈ tasks ∧ r.url_hash = env.hash r.url ∧
      r.outcome = (download_image r.url l f (env.hash r.url) mw mh
          (env.net r.url) (env.decode r.url)).1 ∧
      r.written = (download_image r.url l f (env.hash r.url) mw mh
          (env.net r.url) (env.decode r.url)).2 := by
  induction tasks generalizing st with
  | nil => simp [drainTasks]
  | cons u rest ih =>
    intro r hr
    simp only [drainTasks, List.mem_cons] at hr
    rcases hr with rfl | hr
    · simp
    · obtain ⟨h1, h2, h3, h4⟩ := ih _ r hr
      exact ⟨List.mem_cons_of_mem _ h1, h2, h3, h4⟩

theorem drainTasks_downloaded_mem (env : Env) (l : Int) (f : String) (mw mh : Int)
    (st : RunState) (tasks : List String) (a : String) :
    a ∈ (drainTasks env l f mw mh st tasks).1.downloaded_hashes ↔
      a ∈ st.downloaded_hashes ∨ a ∈ successHashes (drainTasks env l f mw mh st tasks).2 := by
  induction tasks generalizing st with
  | nil => simp [drainTasks, successHashes]
  | cons u rest ih =>
    simp only [drainTasks]
    rw [ih, successHashes_cons]
    by_cases hs : (download_image u l f (env.hash u) mw mh
        (env.net u) (env.decode u)).1.status = Status.success
    · simp only [recordOutcome_downloaded, hs, if_pos, mem_insertHash]
      simp [hs]
      tauto
    · simp only [recordOutcome_downloaded, hs, if_neg]
      simp [hs]

theorem drainTasks_csv (env : Env) (l : Int) (f : String) (mw mh : Int)
    (st : RunState) (tasks : List String) :
    (drainTasks env l f mw mh st tasks).1.csv_rows
      = st.csv_rows
          ++ ((drainTasks env l f mw mh st tasks).2.map fun r => csvRowOf r.url r.outcome) := by
  induction tasks generalizing st with
  | nil => simp [drainTasks]
  | cons u rest ih => simp [drainTasks, ih, recordOutcome_csv]

@[simp] theorem outcomesOf_nil : outcomesOf [] = [] := rfl

@[simp] theorem outcomesOf_failed (p : Option Int) (msg : String) (tr : List PageTrace) :
    outcomesOf (PageTrace.fetchFailed p msg :: tr) = outcomesOf tr := rfl

@[simp] theorem outcomesOf_repeat (p : Option Int) (tr : List PageTrace) :
    outcomesOf (PageTrace.repeatStop p :: tr) = outcomesOf tr := rfl

@[simp] theorem outcomesOf_processed (p : Option Int) (lab : Int) (cands : List String)
    (recs : List TaskRecord) (tr : List PageTrace) :
    outcomesOf (PageTrace.processed p lab cands recs :: tr) = recs ++ outcomesOf tr := rfl

@[simp] theorem candidatesOf_nil : candidatesOf [] = [] := rfl

@[simp] theorem candidatesOf_failed (p : Option Int) (msg : String) (tr : List PageTrace) :
    candidatesOf (PageTrace.fetchFailed p msg :: tr) = candidatesOf tr := rfl

@[simp] theorem candidatesOf_repeat (p : Option Int) (tr : List PageTrace) :
    candidatesOf (PageTrace.repeatStop p :: tr) = candidatesOf tr := rfl

@[simp] theorem candidatesOf_processed (p : Option Int) (lab : Int) (cands : List String)
    (recs : List TaskRecord) (tr : List PageTrace) :
    candidatesOf (PageTrace.processed p lab cands recs :: tr) = cands ++ candidatesOf tr := rfl

theorem runLoop_break (env : Env) (ctx : Ctx) (fuel : Nat) (ds : DriverState)
    (hsel : pageSelect ctx ds.current_page = none) :
    runLoop env ctx (fuel + 1) ds = (ds, []) := by
  simp [runLoop, hsel]

theorem runLoop_failedStep (env : Env) (ctx : Ctx) (fuel : Nat) (ds : DriverState)
    (page : Option Int) (msg : String)
    (hsel : pageSelect ctx ds.current_page = some page)
    (hfail : env.pageFetch page = Except.error msg) :
    runLoop env ctx (fuel + 1) ds
      = ((runLoop env ctx fuel ⟨ds.st, ds.current_page + 1, ds.previous_html⟩).1,
         PageTrace.fetchFailed page msg
           :: (runLoop env ctx fuel ⟨ds.st, ds.current_page + 1, ds.previous_html⟩).2) := by
  simp [runLoop, hsel, hfail]

theorem runLoop_repeatStep (env : Env) (ctx : Ctx) (fuel : Nat) (ds : DriverState)
    (page : Option Int) (d : PageData)
    (hsel : pageSelect ctx ds.current_page = some page)
    (hok : env.pageFetch page = Except.ok d)
    (hrep : ctx.infinite = true ∧ ds.previous_html = some d.text) :
    runLoop env ctx (fuel + 1) ds = (ds, [PageTrace.repeatStop page]) := by
  simp [runLoop, hsel, hok, hrep]

theorem runLoop_processedStep (env : Env) (ctx : Ctx) (fuel : Nat) (ds : DriverState)
    (page : Option Int) (d : PageData)
    (hsel : pageSelect ctx ds.current_page = some page)
    (hok : env.pageFetch page = Except.ok d)
    (hrep : ¬ (ctx.infinite = true ∧ ds.previous_html = some d.text)) :
    runLoop env ctx (fuel + 1) ds
      = ((runLoop env ctx fuel
            ⟨(drainTasks env (labelOf page) ctx.folder ctx.minWidth ctx.minHeight
                (prepareTasks env ds.st d.urls).1 (prepareTasks env ds.st d.urls).2).1,
              ds.current_page + 1, if ctx.infinite then some d.text else none⟩).1,
         PageTrace.processed page (labelOf page) d.urls
             (drainTasks env (labelOf page) ctx.folder ctx.minWidth ctx.minHeight
                (prepareTasks env ds.st d.urls).1 (prepareTasks env ds.st d.urls).2).2
           :: (runLoop env ctx fuel
            ⟨(drainTasks env (labelOf page) ctx.folder ctx.minWidth ctx.minHeight
                (prepareTasks env ds.st d.urls).1 (prepareTasks env ds.st d.urls).2).1,
              ds.current_page + 1, if ctx.infinite then some d.text else none⟩).2) := by
  simp [runLoop, hsel, hok, hrep]

theorem download_image_status_irrel (url : String) (p1 p2 : Int) (f1 f2 h1 h2 : String)
    (mw mh : Int) (fetch : Except String HttpResponse) (dr : Option (Nat × Nat)) :
    (download_image url p1 f1 h1 mw mh fetch dr).1.status
      = (download_image url p2 f2 h2 mw mh fetch dr).1.status := by
  cases fetch with
  | error e => simp [download_image]
  | ok resp =>
    by_cases hc : resp.status_code = 200 ∧ resp.content.length > 1000
    · cases hd : checkDims (isSvgUrl url) mw mh dr with
      | none => simp [download_image, hc, hd]
      | some wh =>
        obtain ⟨w, h⟩ := wh
        simp [download_image, hc, hd]
    · simp [download_image, hc]

theorem download_image_written (url : String) (p : Int) (f h : String) (mw mh : Int)
    (fetch : Except String HttpResponse) (dr : Option (Nat × Nat)) :
    ((download_image url p f h mw mh fetch dr).1.status = Status.success →
      ∃ body, (download_image url p f h mw mh fetch dr).2
        = some ⟨f, "p" ++ toString p ++ "_" ++ h ++ imageExt url, h, body⟩) ∧
    ((download_image url p f h mw mh fetch dr).1.status ≠ Status.success →
      (download_image url p f h mw mh fetch dr).2 = none) := by
  cases fetch with
  | error e => simp [download_image]
  | ok resp =>
    by_cases hc : resp.status_code = 200 ∧ resp.content.length > 1000
    · cases hd : checkDims (isSvgUrl url) mw mh dr with
      | none => simp [download_image, hc, hd, imageExt]
      | some wh =>
        obtain ⟨w, hh⟩ := wh
        simp [download_image, hc, hd]
    · simp [download_image, hc]

/-- Run-level invariant of the page loop: (i) the Identity Index after the run
is exactly the one before, extended by the identifiers of the success
outcomes; (ii) every submitted task carries its URL's identifier, was not in
the index at submission time, and its outcome and written file are those of
its `download_image` call at some page label; (iii) every discovered candidate
whose download would succeed has its identifier in the final index. -/
theorem runLoop_main (env : Env) (ctx : Ctx) (fuel : Nat) :
    ∀ ds : DriverState,
      (∀ a, a ∈ (runLoop env ctx fuel ds).1.st.downloaded_hashes ↔
          a ∈ ds.st.downloaded_hashes
            ∨ a ∈ successHashes (outcomesOf (runLoop env ctx fuel ds).2)) ∧
      (∀ r ∈ outcomesOf (runLoop env ctx fuel ds).2,
          r.url_hash = env.hash r.url ∧ r.url_hash ∉ ds.st.downloaded_hashes ∧
          ∃ lab, r.outcome = (download_image r.url lab ctx.folder (env.hash r.url)
              ctx.minWidth ctx.minHeight (env.net r.url) (env.decode r.url)).1 ∧
            r.written = (download_image r.url lab ctx.folder (env.hash r.url)
              ctx.minWidth ctx.minHeight (env.net r.url) (env.decode r.url)).2) ∧
      (∀ u ∈ candidatesOf (runLoop env ctx fuel ds).2,
          dlStatus env ctx.minWidth ctx.minHeight u = Status.success →
          env.hash u ∈ (runLoop env ctx fuel ds).1.st.downloaded_hashes) ∧
      (∀ r ∈ outcomesOf (runLoop env ctx fuel ds).2,
          r.url ∈ candidatesOf (runLoop env ctx fuel ds).2) := by
  induction fuel with
  | zero =>
    intro ds
    simp [runLoop, successHashes]
  | succ fuel ih =>
    intro ds
    cases hsel : pageSelect ctx ds.current_page with
    | none => simp [runLoop_break env ctx fuel ds hsel, successHashes]
    | some page =>
      cases hfetch : env.pageFetch page with
      | error msg =>
        rw [runLoop_failedStep env ctx fuel ds page msg hsel hfetch]
        simpa using ih ⟨ds.st, ds.current_page + 1, ds.previous_html⟩
      | ok d =>
        by_cases hrep : ctx.infinite = true ∧ ds.previous_html = some d.text
        · rw [runLoop_repeatStep env ctx fuel ds page d hsel hfetch hrep]
          simp [successHashes]
        · rw [runLoop_processedStep env ctx fuel ds page d hsel hfetch hrep]
          have hP := prepareTasks_eq env ds.st d.urls
          set P := prepareTasks env ds.st d.urls with hPdef
          have hPd : P.1.downloaded_hashes = ds.st.downloaded_hashes := by rw [hP]
          have hPt : P.2 = d.urls.filter fun u =>
              ! decide (env.hash u ∈ ds.st.downloaded_hashes) := by rw [hP]
          set D := drainTasks env (labelOf page) ctx.folder ctx.minWidth ctx.minHeight P.1 P.2
            with hDdef
          set ds' : DriverState :=
            ⟨D.1, ds.current_page + 1, if ctx.infinite then some d.text else none⟩ with hds'
          obtain ⟨ih1, ih2, ih3, ih4⟩ := ih ds'
          have hmem : ∀ a, a ∈ D.1.downloaded_hashes ↔
              a ∈ ds.st.downloaded_hashes ∨ a ∈ successHashes D.2 := by
            intro a
            rw [hDdef, drainTasks_downloaded_mem, hPd]
          refine ⟨?_, ?_, ?_, ?_⟩
          · intro a
            simp only [outcomesOf_processed, successHashes_append, List.mem_append]
            constructor
            · intro hx
              rcases (ih1 a).mp hx with hx | hx
              · rcases (hmem a).mp hx with h | h
                · exact Or.inl h
                · exact Or.inr (Or.inl h)
              · exact Or.inr (Or.inr hx)
            · intro hx
              apply (ih1 a).mpr
              rcases hx with h | h | h
              · exact Or.inl ((hmem a).mpr (Or.inl h))
              · exact Or.inl ((hmem a).mpr (Or.inr h))
              · exact Or.inr h
          · intro r hr
            simp only [outcomesOf_processed, List.mem_append] at hr
            rcases hr with hr | hr
            · obtain ⟨h1, h2, h3, h4⟩ :=
                drainTasks_mem_rec env (labelOf page) ctx.folder ctx.minWidth ctx.minHeight
                  P.1 P.2 r (by rw [hDdef] at hr; exact hr)
              have hnot : env.hash r.url ∉ ds.st.downloaded_hashes := by
                rw [hPt] at h1
                have := (List.mem_filter.mp h1).2
                simpa using this
              exact ⟨h2, fun hcon => hnot (h2 ▸ hcon), labelOf page, h3, h4⟩
            · obtain ⟨e1, e2, e3⟩ := ih2 r hr
              exact ⟨e1, fun hcon => e2 ((hmem r.url_hash).mpr (Or.inl hcon)), e3⟩
          · intro u hu hsucc
            simp only [candidatesOf_processed, List.mem_append] at hu
            rcases hu with hu | hu
            · by_cases hin : env.hash u ∈ ds.st.downloaded_hashes
              · exact (ih1 _).mpr (Or.inl ((hmem _).mpr (Or.inl hin)))
              · have hu2 : u ∈ P.2 := by
                  rw [hPt]
                  exact List.mem_filter.mpr ⟨hu, by simp [hin]⟩
                have humap : u ∈ D.2.map fun r => r.url := by
                  rw [hDdef, drainTasks_url_map]
                  exact hu2
                obtain ⟨r, hrD, hru⟩ := List.mem_map.mp humap
                obtain ⟨h1, h2, h3, h4⟩ :=
                  drainTasks_mem_rec env (labelOf page) ctx.folder ctx.minWidth ctx.minHeight
                    P.1 P.2 r (by rw [hDdef] at hrD; exact hrD)
                have hst : r.outcome.status = Status.success := by
                  rw [h3, hru]
                  rw [download_image_status_irrel u (labelOf page) 1 ctx.folder ""
                    (env.hash u) (env.hash u) ctx.minWidth ctx.minHeight
                    (env.net u) (env.decode u)]
                  exact hsucc
                have hsm : r.url_hash ∈ successHashes D.2 := by
                  simp only [successHashes, List.mem_map, List.mem_filter]
                  exact ⟨r, ⟨hrD, by simp [hst]⟩, rfl⟩
                have hD1 : env.hash u ∈ D.1.downloaded_hashes := by
                  have hx := (hmem r.url_hash).mpr (Or.inr hsm)
                  rw [h2, hru] at hx
                  exact hx
                exact (ih1 _).mpr (Or.inl hD1)
            · exact ih3 u hu hsucc
          · intro r hr
            simp only [outcomesOf_processed, candidatesOf_processed, List.mem_append] at hr ⊢
            rcases hr with hr | hr
            · obtain ⟨h1, -, -, -⟩ :=
                drainTasks_mem_rec env (labelOf page) ctx.folder ctx.minWidth ctx.minHeight
                  P.1 P.2 r (by rw [hDdef] at hr; exact hr)
              rw [hPt] at h1
              exact Or.inl (List.mem_of_mem_filter h1)
            · exact Or.inr (ih4 r hr)

/-- With an injective identifier function (the spec's data-model invariant
that distinct URLs have distinct identifiers) and per-page duplicate-free
candidate lists, every identifier has at most one success outcome per run. -/
theorem runLoop_success_count (env : Env) (ctx : Ctx)
    (hinj : Function.Injective env.hash)
    (hnodup : ∀ p d, env.pageFetch p = Except.ok d → d.urls.Nodup) (fuel : Nat) :
    ∀ (ds : DriverState) (h : String),
      successCount (outcomesOf (runLoop env ctx fuel ds).2) h ≤ 1 := by
  induction fuel with
  | zero => intro ds h; simp [runLoop, successCount]
  | succ fuel ih =>
    intro ds h
    cases hsel : pageSelect ctx ds.current_page with
    | none => simp [runLoop_break env ctx fuel ds hsel, successCount]
    | some page =>
      cases hfetch : env.pageFetch page with
      | error msg =>
        rw [runLoop_failedStep env ctx fuel ds page msg hsel hfetch]
        simpa using ih ⟨ds.st, ds.current_page + 1, ds.previous_html⟩ h
      | ok d =>
        by_cases hrep : ctx.infinite = true ∧ ds.previous_html = some d.text
        · rw [runLoop_repeatStep env ctx fuel ds page d hsel hfetch hrep]
          simp [successCount]
        · rw [runLoop_processedStep env ctx fuel ds page d hsel hfetch hrep]
          have hP := prepareTasks_eq env ds.st d.urls
          set P := prepareTasks env ds.st d.urls with hPdef
          have hPt : P.2 = d.urls.filter fun u =>
              ! decide (env.hash u ∈ ds.st.downloaded_hashes) := by rw [hP]
          set D := drainTasks env (labelOf page) ctx.folder ctx.minWidth ctx.minHeight P.1 P.2
            with hDdef
          set ds' : DriverState :=
            ⟨D.1, ds.current_page + 1, if ctx.infinite then some d.text else none⟩ with hds'
          simp only [outcomesOf_processed, successCount_append]
          have htasks : P.2.Nodup := by
            rw [hPt]; exact (hnodup page d hfetch).filter _
          have hhashes : (P.2.map env.hash).Nodup := htasks.map hinj
          have hpage : successCount D.2 h ≤ 1 := by
            have hmono : successCount D.2 h
                ≤ List.countP (fun r => r.url_hash == h) D.2 := by
              apply List.countP_mono_left
              intro r _ hr
              have hx := of_decide_eq_true hr
              simp [hx.2]
            have hcnt : List.countP (fun r => r.url_hash == h) D.2
                = List.count h (P.2.map env.hash) := by
              rw [List.count_eq_countP]
              rw [← drainTasks_hash_map env (labelOf page) ctx.folder ctx.minWidth
                ctx.minHeight P.1 P.2]
              rw [← hDdef, List.countP_map]
              rfl
            have hle := List.nodup_iff_count_le_one.mp hhashes h
            omega
          rcases Nat.eq_zero_or_pos (successCount D.2 h) with h0 | hpos
          · have := ih ds' h
            omega
          · have hpos' : 0 < List.countP
                (fun r => decide (r.outcome.status = Status.success ∧ r.url_hash = h)) D.2 :=
              hpos
            obtain ⟨r, hrD, hpr⟩ := List.countP_pos_iff.mp hpos'
            have hx := of_decide_eq_true hpr
            have hmemD : h ∈ successHashes D.2 := by
              simp only [successHashes, List.mem_map, List.mem_filter]
              exact ⟨r, ⟨hrD, by simp [hx.1]⟩, hx.2⟩
            have hD1 : h ∈ D.1.downloaded_hashes := by
              rw [hDdef, drainTasks_downloaded_mem]
              exact Or.inr (by rw [← hDdef]; exact hmemD)
            have hrest : successCount (outcomesOf (runLoop env ctx fuel ds').2) h = 0 := by
              have hall : ∀ r' ∈ outcomesOf (runLoop env ctx fuel ds').2,
                  ¬ ((fun r' => decide (r'.outcome.status = Status.success
                      ∧ r'.url_hash = h)) r' = true) := by
                intro r' hrR hpr'
                obtain ⟨-, hnot, -⟩ := (runLoop_main env ctx fuel ds').2.1 r' hrR
                obtain ⟨-, hh⟩ := of_decide_eq_true hpr'
                exact hnot (by rw [hh]; exact hD1)
              exact List.countP_eq_zero.mpr hall
            omega

/-- The csv audit rows after a run are exactly the rows before, extended by
one row per produced outcome, in order. -/
theorem runLoop_csv (env : Env) (ctx : Ctx) (fuel : Nat) :
    ∀ ds : DriverState,
      (runLoop env ctx fuel ds).1.st.csv_rows
        = ds.st.csv_rows
            ++ ((outcomesOf (runLoop env ctx fuel ds).2).map
                  fun r => csvRowOf r.url r.outcome) := by
  induction fuel with
  | zero => intro ds; simp [runLoop]
  | succ fuel ih =>
    intro ds
    cases hsel : pageSelect ctx ds.current_page with
    | none => simp [runLoop_break env ctx fuel ds hsel]
    | some page =>
      cases hfetch : env.pageFetch page with
      | error msg =>
        rw [runLoop_failedStep env ctx fuel ds page msg hsel hfetch]
        simpa using ih ⟨ds.st, ds.current_page + 1, ds.previous_html⟩
      | ok d =>
        by_cases hrep : ctx.infinite = true ∧ ds.previous_html = some d.text
        · rw [runLoop_repeatStep env ctx fuel ds page d hsel hfetch hrep]
          simp
        · rw [runLoop_processedStep env ctx fuel ds page d hsel hfetch hrep]
          have hP := prepareTasks_eq env ds.st d.urls
          set P := prepareTasks env ds.st d.urls with hPdef
          have hPc : P.1.csv_rows = ds.st.csv_rows := by rw [hP]
          set D := drainTasks env (labelOf page) ctx.folder ctx.minWidth ctx.minHeight P.1 P.2
            with hDdef
          set ds' : DriverState :=
            ⟨D.1, ds.current_page + 1, if ctx.infinite then some d.text else none⟩ with hds'
          have hDc : D.1.csv_rows
              = P.1.csv_rows ++ (D.2.map fun r => csvRowOf r.url r.outcome) := by
            rw [hDdef]
            exact drainTasks_csv env (labelOf page) ctx.folder ctx.minWidth ctx.minHeight P.1 P.2
          simp only [outcomesOf_processed, List.map_append]
          rw [ih ds']
          have hds'c : ds'.st.csv_rows
              = P.1.csv_rows ++ (D.2.map fun r => csvRowOf r.url r.outcome) := hDc
          rw [hds'c, hPc, List.append_assoc]

theorem digitChar_ne (n : Nat) : Nat.digitChar n ≠ '_' ∧ Nat.digitChar n ≠ '.' := by
  by_cases h : n < 16
  · exact (by decide : ∀ m, m < 16 → Nat.digitChar m ≠ '_' ∧ Nat.digitChar m ≠ '.') n h
  · have h16 : Nat.digitChar n = '*' := by
      unfold Nat.digitChar
      have h0 : n ≠ 0 := by omega
      have h1 : n ≠ 1 := by omega
      have h2 : n ≠ 2 := by omega
      have h3 : n ≠ 3 := by omega
      have h4 : n ≠ 4 := by omega
      have h5 : n ≠ 5 := by omega
      have h6 : n ≠ 6 := by omega
      have h7 : n ≠ 7 := by omega
      have h8 : n ≠ 8 := by omega
      have h9 : n ≠ 9 := by omega
      have h10 : n ≠ 10 := by omega
      have h11 : n ≠ 11 := by omega
      have h12 : n ≠ 12 := by omega
      have h13 : n ≠ 13 := by omega
      have h14 : n ≠ 14 := by omega
      have h15 : n ≠ 15 := by omega
      simp [h0, h1, h2, h3, h4, h5, h6, h7, h8, h9, h10, h11, h12, h13, h14, h15]
    rw [h16]
    exact ⟨by decide, by decide⟩

theorem toDigitsCore_safe (fuel : Nat) : ∀ (n : Nat) (ds : List Char),
    (∀ c ∈ ds, c ≠ '_' ∧ c ≠ '.') →
    ∀ c ∈ Nat.toDigitsCore 10 fuel n ds, c ≠ '_' ∧ c ≠ '.' := by
  induction fuel with
  | zero => intro n ds hds; simpa [Nat.toDigitsCore] using hds
  | succ fuel ih =>
    intro n ds hds c hc
    simp only [Nat.toDigitsCore] at hc
    split at hc
    · rcases List.mem_cons.mp hc with rfl | hmem
      · exact digitChar_ne _
      · exact hds c hmem
    · refine ih (n / 10) _ ?_ c hc
      intro c' hc'
      rcases List.mem_cons.mp hc' with rfl | hmem
      · exact digitChar_ne _
      · exact hds c' hmem

theorem natRepr_safe (n : Nat) : ∀ c ∈ (Nat.repr n).data, c ≠ '_' ∧ c ≠ '.' := by
  intro c hc
  exact toDigitsCore_safe (n + 1) n [] (by simp) c hc

/-- The decimal rendering of an `Int` page label contains neither an
underscore nor a dot — exactly what the filename grammar needs. -/
theorem intToString_safe (i : Int) : ∀ c ∈ (toString i).data, c ≠ '_' ∧ c ≠ '.' := by
  cases i with
  | ofNat m => exact natRepr_safe m
  | negSucc m =>
    intro c hc
    have hd : (toString (Int.negSucc m)).data = '-' :: (Nat.repr (m + 1)).data := rfl
    rw [hd] at hc
    rcases List.mem_cons.mp hc with rfl | hmem
    · exact ⟨by decide, by decide⟩
    · exact natRepr_safe _ c hmem

theorem splitOnChar_ne_nil (c : Char) (l : List Char) : splitOnChar c l ≠ [] := by
  cases l with
  | nil => simp [splitOnChar]
  | cons a rest =>
    simp only [splitOnChar]
    cases hr : splitOnChar c rest with
    | nil => simp
    | cons s ss => by_cases hac : a = c <;> simp [hac]

theorem splitOnChar_not_mem (c : Char) (l : List Char) (h : c ∉ l) :
    splitOnChar c l = [l] := by
  induction l with
  | nil => rfl
  | cons a rest ih =>
    have ha : a ≠ c := (List.ne_of_not_mem_cons h).symm
    simp only [splitOnChar]
    rw [ih (List.not_mem_of_not_mem_cons h)]
    simp [ha]

theorem splitOnChar_append (c : Char) (l1 l2 : List Char) (h : c ∉ l1) :
    splitOnChar c (l1 ++ c :: l2) = l1 :: splitOnChar c l2 := by
  induction l1 with
  | nil =>
    simp only [List.nil_append, splitOnChar]
    obtain ⟨s, ss, hss⟩ : ∃ s ss, splitOnChar c l2 = s :: ss := by
      cases hx : splitOnChar c l2 with
      | nil => exact absurd hx (splitOnChar_ne_nil c l2)
      | cons s ss => exact ⟨s, ss, rfl⟩
    rw [hss]
    simp
  | cons a rest ih =>
    have ha : a ≠ c := (List.ne_of_not_mem_cons h).symm
    simp only [List.cons_append, splitOnChar, List.append_eq]
    rw [ih (List.not_mem_of_not_mem_cons h)]
    simp [ha]

theorem strReplaceAux_copy (p0 : Char) (pat' rep : List Char) (l : List Char)
    (h : ∀ c ∈ l, c ≠ p0) : strReplaceAux (p0 :: pat') rep 0 l = l := by
  induction l with
  | nil => rfl
  | cons a rest ih =>
    have ha : a ≠ p0 := h a (List.mem_cons_self a rest)
    have hpre : ¬((p0 :: pat') ≠ [] ∧ (p0 :: pat').isPrefixOf (a :: rest) = true) := by
      rintro ⟨-, hp⟩
      have hx : (p0 :: pat') <+: (a :: rest) := by simpa using hp
      exact ha (List.cons_prefix_cons.mp hx).1.symm
    simp only [strReplaceAux]
    rw [if_neg hpre, ih fun c hc => h c (List.mem_cons_of_mem _ hc)]

theorem strReplaceAux_append (p0 : Char) (pat' rep : List Char) (h t : List Char)
    (hh : ∀ c ∈ h, c ≠ p0) :
    strReplaceAux (p0 :: pat') rep 0 (h ++ t)
      = h ++ strReplaceAux (p0 :: pat') rep 0 t := by
  induction h with
  | nil => rfl
  | cons a rest ih =>
    have ha : a ≠ p0 := hh a (List.mem_cons_self a rest)
    have hpre : ¬((p0 :: pat') ≠ []
        ∧ (p0 :: pat').isPrefixOf (a :: (rest ++ t)) = true) := by
      rintro ⟨-, hp⟩
      have hx : (p0 :: pat') <+: (a :: (rest ++ t)) := by simpa using hp
      exact ha (List.cons_prefix_cons.mp hx).1.symm
    simp only [List.cons_append, strReplaceAux, List.append_eq]
    rw [if_neg hpre, ih fun c hc => hh c (List.mem_cons_of_mem _ hc)]

/-- Stripping the two extensions from `hash ++ ext` recovers the hash, for a
dot-free hash and `ext` one of the two written extensions. -/
theorem strip_ext (h : String) (hh : ∀ c ∈ h.data, c ≠ '.') (ext : String)
    (hext : ext = ".jpg" ∨ ext = ".svg") :
    pyReplace (pyReplace (String.mk (h.data ++ ext.data)) ".jpg" "") ".svg" "" = h := by
  have hjpg : (".jpg" : String).data = '.' :: ['j', 'p', 'g'] := rfl
  have hsvg : (".svg" : String).data = '.' :: ['s', 'v', 'g'] := rfl
  rcases hext with rfl | rfl
  · have e1 : pyReplace (String.mk (h.data ++ (".jpg" : String).data)) ".jpg" ""
        = String.mk h.data := by
      unfold pyReplace strReplace
      rw [hjpg]
      congr 1
      rw [strReplaceAux_append '.' ['j', 'p', 'g'] [] h.data _ hh]
      rw [show strReplaceAux ('.' :: ['j', 'p', 'g']) [] 0 ('.' :: ['j', 'p', 'g']) = []
        from by decide]
      exact List.append_nil _
    rw [e1]
    unfold pyReplace strReplace
    rw [hsvg]
    rw [show (String.mk h.data).data = h.data from rfl]
    rw [strReplaceAux_copy '.' ['s', 'v', 'g'] [] h.data hh]
  · have e1 : pyReplace (String.mk (h.data ++ (".svg" : String).data)) ".jpg" ""
        = String.mk (h.data ++ (".svg" : String).data) := by
      unfold pyReplace strReplace
      rw [hjpg]
      congr 1
      rw [show (String.mk (h.data ++ (".svg" : String).data)).data
        = h.data ++ (".svg" : String).data from rfl]
      rw [strReplaceAux_append '.' ['j', 'p', 'g'] [] h.data _ hh]
      rw [show strReplaceAux ('.' :: ['j', 'p', 'g']) [] 0 (".svg" : String).data
        = (".svg" : String).data from by decide]
    rw [e1]
    unfold pyReplace strReplace
    rw [hsvg]
    rw [show (String.mk (h.data ++ (".svg" : String).data)).data
      = h.data ++ (".svg" : String).data from rfl]
    rw [show ((".svg" : String).data : List Char)
      = '.' :: ['s', 'v', 'g'] from rfl]
    rw [strReplaceAux_append '.' ['s', 'v', 'g'] [] h.data _ hh]
    rw [show strReplaceAux ('.' :: ['s', 'v', 'g']) [] 0 ('.' :: ['s', 'v', 'g']) = []
      from by decide]
    exact congrArg String.mk (List.append_nil _)

theorem seedStep_mono (acc : List String) (f a : String) (ha : a ∈ acc) :
    a ∈ seedStep acc f := by
  unfold seedStep
  split
  · split
    · exact (mem_insertHash _ _ _).mpr (Or.inl ha)
    · exact ha
  · exact ha

theorem foldl_seedStep_mono (l : List String) : ∀ acc a, a ∈ acc →
    a ∈ l.foldl seedStep acc := by
  induction l with
  | nil => intro acc a ha; exact ha
  | cons f rest ih =>
    intro acc a ha
    exact ih _ a (seedStep_mono acc f a ha)

theorem seedHashes_of_parse (listing : List String) (f a : String) (hf : f ∈ listing)
    (hstep : ∀ acc, a ∈ seedStep acc f) : a ∈ seedHashes listing := by
  unfold seedHashes
  revert hf
  suffices hgen : ∀ l : List String, f ∈ l → ∀ acc, a ∈ l.foldl seedStep acc from
    fun hf => hgen listing hf []
  intro l
  induction l with
  | nil => intro h; cases h
  | cons g rest ih =>
    intro hmem acc
    rcases List.mem_cons.mp hmem with rfl | hmem
    · exact foldl_seedStep_mono rest _ a (hstep acc)
    · exact ih hmem _

/-- The filename written on success parses back to its identifier: the seed
step on `p{label}_{hash}{ext}` inserts exactly `hash`. -/
theorem seedStep_parse (acc : List String) (lab : Int) (h ext : String)
    (hh : validHashStr h) (hext : ext = ".jpg" ∨ ext = ".svg") :
    seedStep acc ("p" ++ toString lab ++ "_" ++ h ++ ext) = insertHash acc h := by
  have hdata : ("p" ++ toString lab ++ "_" ++ h ++ ext).data
      = ('p' :: (toString lab).data) ++ '_' :: (h.data ++ ext.data) := by
    simp [String.data_append]
  have hend : (pyEndsWith ("p" ++ toString lab ++ "_" ++ h ++ ext) ".jpg"
      || pyEndsWith ("p" ++ toString lab ++ "_" ++ h ++ ext) ".svg") = true := by
    have hsfx : ∀ e : String, e = ext →
        (".jpg" = e ∨ ".svg" = e) → pyEndsWith ("p" ++ toString lab ++ "_" ++ h ++ ext) ext
          = true := by
      intro e _ _
      apply decide_eq_true
      rw [hdata]
      have : ('p' :: (toString lab).data) ++ '_' :: (h.data ++ ext.data)
          = (('p' :: (toString lab).data) ++ '_' :: h.data) ++ ext.data := by
        simp
      rw [this]
      exact List.suffix_append _ _
    rcases hext with rfl | rfl
    · rw [hsfx ".jpg" rfl (Or.inl rfl)]
      simp
    · rw [hsfx ".svg" rfl (Or.inr rfl)]
      simp
  have hnomem1 : '_' ∉ 'p' :: (toString lab).data := by
    intro hmem
    rcases List.mem_cons.mp hmem with he | hm
    · exact absurd he (by decide)
    · exact (intToString_safe lab _ hm).1 rfl
  have hnomem2 : '_' ∉ h.data ++ ext.data := by
    intro hmem
    rcases List.mem_append.mp hmem with hm | hm
    · exact (hh _ hm).1 rfl
    · rcases hext with rfl | rfl
      · exact absurd hm (by decide)
      · exact absurd hm (by decide)
  have hsplit : pySplit ("p" ++ toString lab ++ "_" ++ h ++ ext) '_'
      = ["p" ++ toString lab, String.mk (h.data ++ ext.data)] := by
    unfold pySplit
    rw [hdata, splitOnChar_append _ _ _ hnomem1, splitOnChar_not_mem _ _ hnomem2]
    rw [show ('p' :: (toString lab).data) = ("p" ++ toString lab).data from by
      simp [String.data_append]]
    rfl
  unfold seedStep
  rw [hsplit]
  simp only [hend, if_true]
  exact congrArg (insertHash acc)
    (strip_ext h (fun c hc => (hh c hc).2) ext hext)

theorem drainTasks_skipped (env : Env) (l : Int) (f : String) (mw mh : Int)
    (st : RunState) (tasks : List String) :
    (drainTasks env l f mw mh st tasks).1.skipped_count = st.skipped_count := by
  induction tasks generalizing st with
  | nil => simp [drainTasks]
  | cons u rest ih => simp [drainTasks, ih, recordOutcome_skipped]

theorem drainTasks_length (env : Env) (l : Int) (f : String) (mw mh : Int)
    (st : RunState) (tasks : List String) :
    (drainTasks env l f mw mh st tasks).2.length = tasks.length := by
  have := congrArg List.length (drainTasks_url_map env l f mw mh st tasks)
  simpa using this

/-- The pages visited and the candidates discovered do not depend on the run
state carried along: the loop's control flow reads only the page counter, the
previous page text, and the environment. -/
theorem runLoop_candidates (env : Env) (ctx : Ctx) (fuel : Nat) :
    ∀ (c : Int) (ph : Option String) (st st' : RunState),
      candidatesOf (runLoop env ctx fuel ⟨st, c, ph⟩).2
        = candidatesOf (runLoop env ctx fuel ⟨st', c, ph⟩).2 := by
  induction fuel with
  | zero => intro c ph st st'; simp [runLoop]
  | succ fuel ih =>
    intro c ph st st'
    cases hsel : pageSelect ctx c with
    | none =>
      rw [runLoop_break env ctx fuel ⟨st, c, ph⟩ hsel,
        runLoop_break env ctx fuel ⟨st', c, ph⟩ hsel]
    | some page =>
      cases hfetch : env.pageFetch page with
      | error msg =>
        rw [runLoop_failedStep env ctx fuel ⟨st, c, ph⟩ page msg hsel hfetch,
          runLoop_failedStep env ctx fuel ⟨st', c, ph⟩ page msg hsel hfetch]
        simpa using ih (c + 1) ph st st'
      | ok d =>
        by_cases hrep : ctx.infinite = true ∧ ph = some d.text
        · rw [runLoop_repeatStep env ctx fuel ⟨st, c, ph⟩ page d hsel hfetch hrep,
            runLoop_repeatStep env ctx fuel ⟨st', c, ph⟩ page d hsel hfetch hrep]
        · rw [runLoop_processedStep env ctx fuel ⟨st, c, ph⟩ page d hsel hfetch hrep,
            runLoop_processedStep env ctx fuel ⟨st', c, ph⟩ page d hsel hfetch hrep]
          simp only [candidatesOf_processed]
          congr 1
          exact ih (c + 1) _ _ _

/-- Outcome completeness at run level: every discovered candidate is either
counted as a duplicate skip or yields exactly one outcome. -/
theorem runLoop_skipped (env : Env) (ctx : Ctx) (fuel : Nat) :
    ∀ ds : DriverState,
      (runLoop env ctx fuel ds).1.st.skipped_count
          + (outcomesOf (runLoop env ctx fuel ds).2).length
        = ds.st.skipped_count + (candidatesOf (runLoop env ctx fuel ds).2).length := by
  induction fuel with
  | zero => intro ds; simp [runLoop]
  | succ fuel ih =>
    intro ds
    cases hsel : pageSelect ctx ds.current_page with
    | none => simp [runLoop_break env ctx fuel ds hsel]
    | some page =>
      cases hfetch : env.pageFetch page with
      | error msg =>
        rw [runLoop_failedStep env ctx fuel ds page msg hsel hfetch]
        simpa using ih ⟨ds.st, ds.current_page + 1, ds.previous_html⟩
      | ok d =>
        by_cases hrep : ctx.infinite = true ∧ ds.previous_html = some d.text
        · rw [runLoop_repeatStep env ctx fuel ds page d hsel hfetch hrep]
          simp
        · rw [runLoop_processedStep env ctx fuel ds page d hsel hfetch hrep]
          have hP := prepareTasks_eq env ds.st d.urls
          set P := prepareTasks env ds.st d.urls with hPdef
          have hPs : P.1.skipped_count = ds.st.skipped_count
              + (d.urls.filter fun u =>
                  decide (env.hash u ∈ ds.st.downloaded_hashes)).length := by rw [hP]
          have hPt : P.2 = d.urls.filter fun u =>
              ! decide (env.hash u ∈ ds.st.downloaded_hashes) := by rw [hP]
          set D := drainTasks env (labelOf page) ctx.folder ctx.minWidth ctx.minHeight P.1 P.2
            with hDdef
          set ds' : DriverState :=
            ⟨D.1, ds.current_page + 1, if ctx.infinite then some d.text else none⟩ with hds'
          have hcount : (d.urls.filter fun u =>
                decide (env.hash u ∈ ds.st.downloaded_hashes)).length
              + (d.urls.filter fun u =>
                  ! decide (env.hash u ∈ ds.st.downloaded_hashes)).length
              = d.urls.length := by
            rw [← List.countP_eq_length_filter, ← List.countP_eq_length_filter]
            rw [List.length_eq_countP_add_countP
              (p := fun u => decide (env.hash u ∈ ds.st.downloaded_hashes)) d.urls]
            have : List.countP (fun u => ! decide (env.hash u ∈ ds.st.downloaded_hashes)) d.urls
                = List.countP
                    (fun a => decide ¬ decide (env.hash a ∈ ds.st.downloaded_hashes) = true)
                    d.urls := by
              apply List.countP_congr
              intro x _
              simp
            omega
          have hDs : D.1.skipped_count = P.1.skipped_count := by
            rw [hDdef]
            exact drainTasks_skipped env (labelOf page) ctx.folder ctx.minWidth ctx.minHeight
              P.1 P.2
          have hDl : D.2.length = P.2.length := by
            rw [hDdef]
            exact drainTasks_length env (labelOf page) ctx.folder ctx.minWidth ctx.minHeight
              P.1 P.2
          have hih := ih ds'
          have hds's : ds'.st.skipped_count = D.1.skipped_count := rfl
          simp only [outcomesOf_processed, candidatesOf_processed, List.length_append]
          rw [hds's] at hih
          rw [hPt] at hDl
          rw [hPs] at hDs
          omega

/-- Every written file carries the identifier of its URL and the
`p{label}_{hash}{ext}` filename, with `ext` the forum derivation's. -/
theorem writes_shape (env : Env) (ctx : Ctx) (fuel : Nat) (ds : DriverState) :
    ∀ w ∈ writesOf (runLoop env ctx fuel ds).2,
      ∃ (lab : Int) (url : String), w.url_hash = env.hash url ∧
        w.filename = "p" ++ toString lab ++ "_" ++ w.url_hash ++ imageExt url := by
  intro w hw
  simp only [writesOf, List.mem_filterMap] at hw
  obtain ⟨r, hrmem, hrw⟩ := hw
  obtain ⟨heq, -, lab, ho, hwr⟩ := (runLoop_main env ctx fuel ds).2.1 r hrmem
  have hdw : (download_image r.url lab ctx.folder (env.hash r.url) ctx.minWidth ctx.minHeight
      (env.net r.url) (env.decode r.url)).2 = some w := by rw [← hwr, hrw]
  by_cases hs : (download_image r.url lab ctx.folder (env.hash r.url) ctx.minWidth ctx.minHeight
      (env.net r.url) (env.decode r.url)).1.status = Status.success
  · obtain ⟨body, hbody⟩ := (download_image_written r.url lab ctx.folder (env.hash r.url)
      ctx.minWidth ctx.minHeight (env.net r.url) (env.decode r.url)).1 hs
    rw [hbody] at hdw
    have hw' := Option.some.inj hdw
    refine ⟨lab, r.url, ?_, ?_⟩
    · rw [← hw']
    · rw [← hw']
  · rw [(download_image_written r.url lab ctx.folder (env.hash r.url)
      ctx.minWidth ctx.minHeight (env.net r.url) (env.decode r.url)).2 hs] at hdw
    cases hdw

/-- Every success outcome's identifier belongs to a written file. -/
theorem successHashes_sub_writes (env : Env) (ctx : Ctx) (fuel : Nat) (ds : DriverState) :
    ∀ a ∈ successHashes (outcomesOf (runLoop env ctx fuel ds).2),
      a ∈ (writesOf (runLoop env ctx fuel ds).2).map fun w => w.url_hash := by
  intro a ha
  simp only [successHashes, List.mem_map, List.mem_filter] at ha
  obtain ⟨r, ⟨hrmem, hrsucc⟩, rfl⟩ := ha
  obtain ⟨heq, -, lab, ho, hwr⟩ := (runLoop_main env ctx fuel ds).2.1 r hrmem
  have hsucc : (download_image r.url lab ctx.folder (env.hash r.url) ctx.minWidth ctx.minHeight
      (env.net r.url) (env.decode r.url)).1.status = Status.success := by
    rw [← ho]
    exact of_decide_eq_true hrsucc
  obtain ⟨body, hbody⟩ := (download_image_written r.url lab ctx.folder (env.hash r.url)
    ctx.minWidth ctx.minHeight (env.net r.url) (env.decode r.url)).1 hsucc
  refine List.mem_map.mpr
    ⟨⟨ctx.folder, "p" ++ toString lab ++ "_" ++ env.hash r.url ++ imageExt r.url,
      env.hash r.url, body⟩, ?_, heq.symm⟩
  simp only [writesOf, List.mem_filterMap]
  exact ⟨r, hrmem, by rw [hwr, hbody]⟩

/-- C3: running the same source twice against the same destination directory
is a seed/write round-trip.  With the directory initially empty, the second
run — whose directory listing is exactly the filenames the first run wrote —
writes zero new files; every identifier written by run one is recovered by run
two's directory scan; no candidate fetched by run two carries an identifier
written by run one (those candidates are filtered, not fetched); and every
run-two candidate is either counted as a duplicate skip or yields an outcome.
The hypothesis is identifier well-formedness (no `_`/`.` characters), which
`hashlib.md5(...).hexdigest()[:8]` always satisfies. -/
theorem C3_seed_write_roundtrip (env : Env) (threadUrl : String)
    (startPage endPage minWidth minHeight : Int) (usePagination : Bool) (fuel : Nat)
    (hhash : ∀ u, validHashStr (env.hash u)) :
    ((process_thread env threadUrl startPage endPage minWidth minHeight usePagination
        ((process_thread env threadUrl startPage endPage minWidth minHeight usePagination
            [] fuel).filesWritten.map fun w => w.filename) fuel).filesWritten = []) ∧
    (∀ w ∈ (process_thread env threadUrl startPage endPage minWidth minHeight usePagination
        [] fuel).filesWritten,
      w.url_hash ∈ seedHashes
        ((process_thread env threadUrl startPage endPage minWidth minHeight usePagination
            [] fuel).filesWritten.map fun w' => w'.filename)) ∧
    (∀ rec ∈ outcomesOf (process_thread env threadUrl startPage endPage minWidth minHeight
        usePagination
        ((process_thread env threadUrl startPage endPage minWidth minHeight usePagination
            [] fuel).filesWritten.map fun w => w.filename) fuel).trace,
      rec.url_hash ∉ (process_thread env threadUrl startPage endPage minWidth minHeight
          usePagination [] fuel).filesWritten.map fun w => w.url_hash) ∧
    ((process_thread env threadUrl startPage endPage minWidth minHeight usePagination
        ((process_thread env threadUrl startPage endPage minWidth minHeight usePagination
            [] fuel).filesWritten.map fun w => w.filename) fuel).skipped_count
        + (outcomesOf (process_thread env threadUrl startPage endPage minWidth minHeight
            usePagination
            ((process_thread env threadUrl startPage endPage minWidth minHeight usePagination
                [] fuel).filesWritten.map fun w => w.filename) fuel).trace).length
      = (candidatesOf (process_thread env threadUrl startPage endPage minWidth minHeight
          usePagination
          ((process_thread env threadUrl startPage endPage minWidth minHeight usePagination
              [] fuel).filesWritten.map fun w => w.filename) fuel).trace).length) := by
  by_cases hurl : (pyStartsWith threadUrl "http://" || pyStartsWith threadUrl "https://") = true
  · have hfw : ∀ listing : List String,
        (process_thread env threadUrl startPage endPage minWidth minHeight usePagination
            listing fuel).filesWritten
          = writesOf (runLoop env
              ⟨usePagination, startPage, endPage, env.folderOf threadUrl, minWidth, minHeight⟩
              fuel ⟨⟨seedHashes listing, [], [], 0, 0⟩, startPage, none⟩).2 := by
      intro listing
      simp [process_thread, hurl]
    have htrace : ∀ listing : List String,
        (process_thread env threadUrl startPage endPage minWidth minHeight usePagination
            listing fuel).trace
          = (runLoop env
              ⟨usePagination, startPage, endPage, env.folderOf threadUrl, minWidth, minHeight⟩
              fuel ⟨⟨seedHashes listing, [], [], 0, 0⟩, startPage, none⟩).2 := by
      intro listing
      simp [process_thread, hurl]
    have hskp : ∀ listing : List String,
        (process_thread env threadUrl startPage endPage minWidth minHeight usePagination
            listing fuel).skipped_count
          = (runLoop env
              ⟨usePagination, startPage, endPage, env.folderOf threadUrl, minWidth, minHeight⟩
              fuel ⟨⟨seedHashes listing, [], [], 0, 0⟩, startPage, none⟩).1.st.skipped_count := by
      intro listing
      simp [process_thread, hurl]
    set ctx : Ctx :=
      ⟨usePagination, startPage, endPage, env.folderOf threadUrl, minWidth, minHeight⟩
      with hctx
    set ds1 : DriverState := ⟨⟨seedHashes [], [], [], 0, 0⟩, startPage, none⟩ with hds1
    set L : List String :=
      (writesOf (runLoop env ctx fuel ds1).2).map fun w => w.filename with hL
    set ds2 : DriverState := ⟨⟨seedHashes L, [], [], 0, 0⟩, startPage, none⟩ with hds2
    rw [hfw []] at *
    have hK1 : ∀ w ∈ writesOf (runLoop env ctx fuel ds1).2, w.url_hash ∈ seedHashes L := by
      intro w hw
      obtain ⟨lab, url, hwh, hwf⟩ := writes_shape env ctx fuel ds1 w hw
      apply seedHashes_of_parse L w.filename w.url_hash
      · exact List.mem_map.mpr ⟨w, hw, rfl⟩
      · intro acc
        rw [hwf]
        have hv : validHashStr w.url_hash := by rw [hwh]; exact hhash url
        have hext : imageExt url = ".jpg" ∨ imageExt url = ".svg" := by
          unfold imageExt
          split
          · exact Or.inr rfl
          · exact Or.inl rfl
        rw [seedStep_parse acc lab w.url_hash (imageExt url) hv hext]
        exact (mem_insertHash _ _ _).mpr (Or.inr rfl)
    have hK2 : ∀ rec ∈ outcomesOf (runLoop env ctx fuel ds2).2,
        rec.url_hash ∉ (writesOf (runLoop env ctx fuel ds1).2).map fun w => w.url_hash := by
      intro rec hrec hcon
      obtain ⟨w, hw, hwu⟩ := List.mem_map.mp hcon
      have hseed : rec.url_hash ∈ seedHashes L := by rw [← hwu]; exact hK1 w hw
      obtain ⟨-, hnot, -⟩ := (runLoop_main env ctx fuel ds2).2.1 rec hrec
      exact hnot hseed
    have hK3 : writesOf (runLoop env ctx fuel ds2).2 = [] := by
      rw [List.eq_nil_iff_forall_not_mem]
      intro w hw
      simp only [writesOf, List.mem_filterMap] at hw
      obtain ⟨rec, hrecmem, hrw⟩ := hw
      obtain ⟨heq, -, lab, ho, hwr⟩ := (runLoop_main env ctx fuel ds2).2.1 rec hrecmem
      have hdw : (download_image rec.url lab ctx.folder (env.hash rec.url)
          ctx.minWidth ctx.minHeight (env.net rec.url) (env.decode rec.url)).2 = some w := by
        rw [← hwr, hrw]
      have hs : (download_image rec.url lab ctx.folder (env.hash rec.url)
          ctx.minWidth ctx.minHeight (env.net rec.url) (env.decode rec.url)).1.status
            = Status.success := by
        by_contra hns
        rw [(download_image_written rec.url lab ctx.folder (env.hash rec.url)
          ctx.minWidth ctx.minHeight (env.net rec.url) (env.decode rec.url)).2 hns] at hdw
        cases hdw
      have hds : dlStatus env ctx.minWidth ctx.minHeight rec.url = Status.success := by
        unfold dlStatus
        rw [download_image_status_irrel rec.url 1 lab "" ctx.folder (env.hash rec.url)
          (env.hash rec.url) ctx.minWidth ctx.minHeight (env.net rec.url) (env.decode rec.url)]
        exact hs
      have hcand2 : rec.url ∈ candidatesOf (runLoop env ctx fuel ds2).2 :=
        (runLoop_main env ctx fuel ds2).2.2.2 rec hrecmem
      have hcand1 : rec.url ∈ candidatesOf (runLoop env ctx fuel ds1).2 := by
        have hcc := runLoop_candidates env ctx fuel startPage none
          (⟨seedHashes L, [], [], 0, 0⟩ : RunState) (⟨seedHashes [], [], [], 0, 0⟩ : RunState)
        rw [← hcc]
        exact hcand2
      have hfin : env.hash rec.url ∈ (runLoop env ctx fuel ds1).1.st.downloaded_hashes :=
        (runLoop_main env ctx fuel ds1).2.2.1 rec.url hcand1 hds
      have hsh : env.hash rec.url ∈ successHashes (outcomesOf (runLoop env ctx fuel ds1).2) := by
        rcases ((runLoop_main env ctx fuel ds1).1 _).mp hfin with hx | hx
        · exact absurd hx (by simp [seedHashes])
        · exact hx
      have hwm : env.hash rec.url
          ∈ (writesOf (runLoop env ctx fuel ds1).2).map fun w' => w'.url_hash :=
        successHashes_sub_writes env ctx fuel ds1 _ hsh
      rw [← heq] at hwm
      exact hK2 rec hrecmem hwm
    refine ⟨?_, ?_, ?_, ?_⟩
    · rw [hfw L]
      exact hK3
    · exact hK1
    · rw [htrace L]
      exact hK2
    · rw [htrace L, hskp L]
      have := runLoop_skipped env ctx fuel ds2
      simpa using this
  · have hempty : ∀ listing : List String,
        process_thread env threadUrl startPage endPage minWidth minHeight usePagination
            listing fuel = ⟨[], [], 0, 0, [], [], [], []⟩ := by
      intro listing
      simp only [Bool.or_eq_true, not_or] at hurl
      simp [process_thread, hurl.1, hurl.2]
    simp [hempty]

/-- C1: with the identifier function injective (the spec's data-model
invariant that two different URLs are different identifiers) and each page's
candidate set duplicate-free (the source collects it in a Python `set`), at
most one `success` Outcome is recorded per content identifier across a whole
run, even when the same URL string appears on multiple pages; the Identity
Index after the run is exactly the index before extended by the identifiers of
the success Outcomes (grown only by success insertions, never shrinking); and
the filtering step submits exactly the candidates whose identifier is not yet
in the index, skipping the others before they reach the worker pool. -/
theorem C1_at_most_once_per_identifier (env : Env) (ctx : Ctx) (fuel : Nat)
    (ds : DriverState)
    (hinj : Function.Injective env.hash)
    (hnodup : ∀ p d, env.pageFetch p = Except.ok d → d.urls.Nodup) :
    (∀ h, successCount (outcomesOf (runLoop env ctx fuel ds).2) h ≤ 1) ∧
    (∀ h, h ∈ (runLoop env ctx fuel ds).1.st.downloaded_hashes ↔
        h ∈ ds.st.downloaded_hashes
          ∨ h ∈ successHashes (outcomesOf (runLoop env ctx fuel ds).2)) ∧
    (∀ h, h ∈ ds.st.downloaded_hashes →
        h ∈ (runLoop env ctx fuel ds).1.st.downloaded_hashes) ∧
    (∀ (st : RunState) (urls : List String), (prepareTasks env st urls).2
        = urls.filter fun u => ! decide (env.hash u ∈ st.downloaded_hashes)) :=
  ⟨fun h => runLoop_success_count env ctx hinj hnodup fuel ds h,
   fun h => (runLoop_main env ctx fuel ds).1 h,
   fun h hh => ((runLoop_main env ctx fuel ds).1 h).mpr (Or.inl hh),
   fun st urls => by rw [prepareTasks_eq]⟩

/-- C6 counterexample: in the google-images variant, a duplicate-skipped
candidate IS written as an audit row (`already downloaded`,
src/google-images-scraper.py line 363) besides being counted — refuting the
claim that duplicate-skipped candidates are never written as audit rows. -/
theorem C6_counterexample :
    (g_step
        ⟨fun _ => Except.error "page", fun _ => Except.error "net", fun _ => none,
         fun _ => "h", fun _ => "dir"⟩
        0 0 "f" ⟨["h"], [], [], 0, 0⟩ 1 "http://a/x").csv_rows
      = [("http://a/x", "", "img_0001_h", "already downloaded")] ∧
    (g_step
        ⟨fun _ => Except.error "page", fun _ => Except.error "net", fun _ => none,
         fun _ => "h", fun _ => "dir"⟩
        0 0 "f" ⟨["h"], [], [], 0, 0⟩ 1 "http://a/x").skipped_count = 1 := by
  exact ⟨by decide, by decide⟩

/-- C6 (amended): in the forum scraper the audit log gains exactly one row per
produced Outcome (so one per attempted candidate) and the filtering step
writes no audit row for duplicate-skipped candidates, which are only counted;
the google-images variant, however, additionally writes an
`already downloaded` audit row for every duplicate-skipped candidate. -/
theorem C6_audit_rows (env : Env) (ctx : Ctx) (fuel : Nat) (ds : DriverState)
    (minWidth minHeight : Int) (folder : String) (st : RunState) (idx : Nat)
    (src : String) :
    ((runLoop env ctx fuel ds).1.st.csv_rows
        = ds.st.csv_rows
            ++ ((outcomesOf (runLoop env ctx fuel ds).2).map
                  fun r => csvRowOf r.url r.outcome)) ∧
    (∀ (st' : RunState) (urls : List String),
        (prepareTasks env st' urls).1.csv_rows = st'.csv_rows) ∧
    (env.hash src ∈ st.downloaded_hashes →
      (g_step env minWidth minHeight folder st idx src).csv_rows
          = st.csv_rows ++ [(src, "", "img_" ++ pad4 idx ++ "_" ++ env.hash src,
              "already downloaded")] ∧
      (g_step env minWidth minHeight folder st idx src).skipped_count
          = st.skipped_count + 1) :=
  ⟨runLoop_csv env ctx fuel ds,
   fun st' urls => by rw [prepareTasks_eq],
   fun hmem => by simp [g_step, hmem]⟩

theorem intRange_succ (s : Int) (n : Nat) : intRange s (n + 1) = s :: intRange (s + 1) n := by
  unfold intRange
  rw [List.range_succ_eq_map, List.map_cons, List.map_map]
  congr 1
  · simp
  · apply List.map_congr_left
    intro i _
    simp only [Function.comp_apply]
    push_cast
    ring

/-- Open-ended pagination, inner segment: from page `m` (with the previous
page's text on record), when the first adjacent repetition is at page `k`, the
loop processes pages `m..k-1` once each and stops after fetching page `k`. -/
theorem C4_aux (env : Env) (ctx : Ctx) (s k : Int) (d : Int → PageData)
    (hinf : ctx.infinite = true)
    (hfetch : ∀ p : Int, s ≤ p → p ≤ k → env.pageFetch (some p) = Except.ok (d p))
    (hrepeat : (d k).text = (d (k - 1)).text)
    (hfirst : ∀ j : Int, s < j → j < k → (d j).text ≠ (d (j - 1)).text) :
    ∀ (n : Nat) (m : Int) (st : RunState) (fuel : Nat),
      m = k - n → s < m → n + 1 ≤ fuel →
      traceTags (runLoop env ctx fuel ⟨st, m, some ((d (m - 1)).text)⟩).2
        = ((intRange m n).map fun p => (2, some p)) ++ [(1, some k)] := by
  have huse : ctx.usePagination = true := by
    have hx := hinf
    simp only [Ctx.infinite, Bool.and_eq_true] at hx
    exact hx.1
  intro n
  induction n with
  | zero =>
    intro m st fuel hm hsm hfuel
    obtain ⟨f, rfl⟩ : ∃ f, fuel = f + 1 := ⟨fuel - 1, by omega⟩
    have hmk : m = k := by omega
    subst hmk
    have hsel : pageSelect ctx m = some (some m) := by
      simp [pageSelect, huse, hinf]
    rw [runLoop_repeatStep env ctx f ⟨st, m, some ((d (m - 1)).text)⟩ (some m) (d m) hsel
      (hfetch m (by omega) le_rfl) ⟨hinf, by rw [hrepeat]⟩]
    simp [traceTags, intRange]
  | succ n ihn =>
    intro m st fuel hm hsm hfuel
    obtain ⟨f, rfl⟩ : ∃ f, fuel = f + 1 := ⟨fuel - 1, by omega⟩
    have hmk : m < k := by omega
    have hsel : pageSelect ctx m = some (some m) := by
      simp [pageSelect, huse, hinf]
    have hok := hfetch m (by omega) (by omega)
    have hrep : ¬ (ctx.infinite = true
        ∧ (⟨st, m, some ((d (m - 1)).text)⟩ : DriverState).previous_html
            = some (d m).text) := by
      rintro ⟨-, hcon⟩
      have hx := Option.some.inj hcon
      exact hfirst m hsm hmk hx.symm
    rw [runLoop_processedStep env ctx f ⟨st, m, some ((d (m - 1)).text)⟩ (some m) (d m)
      hsel hok hrep]
    simp only [hinf, if_true, traceTags, List.map_cons]
    rw [intRange_succ]
    simp only [List.map_cons, List.cons_append]
    congr 1
    have hx := ihn (m + 1)
      (drainTasks env (labelOf (some m)) ctx.folder ctx.minWidth ctx.minHeight
        (prepareTasks env st (d m).urls).1 (prepareTasks env st (d m).urls).2).1
      f (by omega) (by omega) (by omega)
    rw [show m + 1 - 1 = m from by ring] at hx
    exact hx

/-- C4: in open-ended pagination mode, when page `k`'s raw content is the
first to be byte-identical to its immediately preceding page's content, the
Page Driver processes pages `startPage..k-1` once each, fetches page `k`, and
terminates there without processing page `k`'s candidates — the comparison
being made only against the immediately preceding page's text. -/
theorem C4_open_ended_termination (env : Env) (ctx : Ctx) (st0 : RunState)
    (s k : Int) (d : Int → PageData)
    (hinf : ctx.infinite = true)
    (hlt : s < k)
    (hfetch : ∀ p : Int, s ≤ p → p ≤ k → env.pageFetch (some p) = Except.ok (d p))
    (hrepeat : (d k).text = (d (k - 1)).text)
    (hfirst : ∀ j : Int, s < j → j < k → (d j).text ≠ (d (j - 1)).text)
    (fuel : Nat) (hfuel : (k - s).toNat + 1 ≤ fuel) :
    traceTags (runLoop env ctx fuel ⟨st0, s, none⟩).2
      = ((intRange s (k - s).toNat).map fun p => (2, some p)) ++ [(1, some k)] := by
  have huse : ctx.usePagination = true := by
    have hx := hinf
    simp only [Ctx.infinite, Bool.and_eq_true] at hx
    exact hx.1
  obtain ⟨f, rfl⟩ : ∃ f, fuel = f + 1 := ⟨fuel - 1, by omega⟩
  have hsel : pageSelect ctx s = some (some s) := by
    simp [pageSelect, huse, hinf]
  have hok := hfetch s le_rfl (by omega)
  have hrep : ¬ (ctx.infinite = true
      ∧ (⟨st0, s, none⟩ : DriverState).previous_html = some (d s).text) := by
    rintro ⟨-, hcon⟩
    cases hcon
  rw [runLoop_processedStep env ctx f ⟨st0, s, none⟩ (some s) (d s) hsel hok hrep]
  simp only [hinf, if_true, traceTags, List.map_cons]
  obtain ⟨n, hn⟩ : ∃ n : Nat, (k - s).toNat = n + 1 := ⟨(k - s).toNat - 1, by omega⟩
  rw [hn, intRange_succ]
  simp only [List.map_cons, List.cons_append]
  congr 1
  have hx := C4_aux env ctx s k d hinf hfetch hrepeat hfirst n (s + 1)
    (drainTasks env (labelOf (some s)) ctx.folder ctx.minWidth ctx.minHeight
      (prepareTasks env st0 (d s).urls).1 (prepareTasks env st0 (d s).urls).2).1
    f (by omega) (by omega) (by omega)
  rw [show s + 1 - 1 = s from by ring] at hx
  exact hx

theorem print_table_header_const (rows : List (String × String × String)) (terminal_width : Int)
    (page_label : Option Int) (sk : Bool) (lrc : Nat) :
    print_table rows terminal_width page_label sk true lrc
      = print_table [] terminal_width page_label sk true 0 := by
  simp [print_table]

theorem print_table_rows_eq (rows : List (String × String × String)) (terminal_width : Int)
    (page_label : Option Int) (sk : Bool) (lrc : Nat) (h : ¬ rows.isEmpty = true) :
    print_table rows terminal_width page_label sk false lrc
      = (rows.drop lrc).map (renderRow (colWidths terminal_width)) := by
  simp [print_table, h]

/-- The cumulative invariant of the incremental renderer: after consuming any
batch sequence from a consistent state, the rows are the concatenation, the
cursor equals the row count, the header flag tracks non-emptiness, and the
output is one header (when any row exists) followed by one render of every
row. -/
theorem renderStep_fold (terminal_width : Int) (label : Int) :
    ∀ (batches : List (List (String × String × String)))
      (rows0 : List (String × String × String)),
      batches.foldl (renderStep terminal_width label)
          ⟨rows0, ! rows0.isEmpty, rows0.length,
            if rows0.isEmpty then []
            else print_table [] terminal_width (some label) false true 0
              ++ rows0.map (renderRow (colWidths terminal_width))⟩
        = ⟨rows0 ++ batches.flatten, ! (rows0 ++ batches.flatten).isEmpty,
           (rows0 ++ batches.flatten).length,
           if (rows0 ++ batches.flatten).isEmpty then []
           else print_table [] terminal_width (some label) false true 0
             ++ (rows0 ++ batches.flatten).map (renderRow (colWidths terminal_width))⟩ := by
  intro batches
  induction batches with
  | nil =>
    intro rows0
    simp
  | cons b bs ih =>
    intro rows0
    have hstep : renderStep terminal_width label
        ⟨rows0, ! rows0.isEmpty, rows0.length,
          if rows0.isEmpty then []
          else print_table [] terminal_width (some label) false true 0
            ++ rows0.map (renderRow (colWidths terminal_width))⟩ b
        = ⟨rows0 ++ b, ! (rows0 ++ b).isEmpty, (rows0 ++ b).length,
           if (rows0 ++ b).isEmpty then []
           else print_table [] terminal_width (some label) false true 0
             ++ (rows0 ++ b).map (renderRow (colWidths terminal_width))⟩ := by
      by_cases h0 : rows0.isEmpty = true
      · have h0' : rows0 = [] := List.isEmpty_iff.mp h0
        subst h0'
        by_cases hb : b.isEmpty = true
        · have hb' : b = [] := List.isEmpty_iff.mp hb
          subst hb'
          simp [renderStep]
        · have hbf : b.isEmpty = false := by
            cases hx : b.isEmpty
            · rfl
            · exact absurd hx hb
          simp only [renderStep, List.nil_append, hbf, List.isEmpty_nil, Bool.not_true,
            List.length_nil, if_false, Bool.false_eq_true, Bool.not_false, if_true]
          rw [print_table_header_const b terminal_width (some label) false 0,
            print_table_rows_eq b terminal_width (some label) false 0 hb]
          simp
      · have h0f : rows0.isEmpty = false := by
          cases hx : rows0.isEmpty
          · rfl
          · exact absurd hx h0
        have hemp : ¬ (rows0 ++ b).isEmpty = true := by
          intro hx
          rcases List.append_eq_nil.mp (List.isEmpty_iff.mp hx) with ⟨h1, -⟩
          exact h0 (by simp [h1])
        have hempf : (rows0 ++ b).isEmpty = false := by
          cases hx : (rows0 ++ b).isEmpty
          · rfl
          · exact absurd hx hemp
        simp only [renderStep, h0f, hempf, Bool.not_false, Bool.not_true, if_false,
          Bool.false_eq_true, Bool.true_eq_false, if_true]
        rw [print_table_rows_eq (rows0 ++ b) terminal_width (some label) false
          rows0.length hemp]
        rw [List.drop_left]
        simp [List.map_append, List.append_assoc]
    rw [List.foldl_cons, hstep, ih (rows0 ++ b)]
    simp [List.append_assoc]

/-- C9: the concatenation of all incremental renders of a page's completing
outcomes (each contributing its batch of table rows) equals one render of the
full table — the page banner and table header emitted exactly once, before any
data row, and no row ever reprinted. -/
theorem C9_incremental_rendering (terminal_width : Int) (label : Int)
    (batches : List (List (String × String × String))) :
    (batches.foldl (renderStep terminal_width label) ⟨[], false, 0, []⟩).out
      = (if batches.flatten.isEmpty then []
         else print_table batches.flatten terminal_width (some label) false true 0
           ++ print_table batches.flatten terminal_width (some label) false false 0) := by
  have hfold := renderStep_fold terminal_width label batches []
  simp only [List.nil_append] at hfold
  rw [show (⟨[], false, 0, []⟩ : RenderState)
      = ⟨([] : List (String × String × String)), ! ([] : List (String × String × String)).isEmpty,
         ([] : List (String × String × String)).length,
         if ([] : List (String × String × String)).isEmpty then []
         else print_table [] terminal_width (some label) false true 0
           ++ ([] : List (String × String × String)).map
                (renderRow (colWidths terminal_width))⟩ from rfl]
  rw [hfold]
  by_cases hemp : batches.flatten.isEmpty = true
  · simp [hemp]
  · simp only [hemp, if_false]
    rw [print_table_header_const batches.flatten terminal_width (some label) false 0,
      print_table_rows_eq batches.flatten terminal_width (some label) false 0 hemp]
    simp

/-- C2: for the Fetch-Validate-Persist unit `download_image`: a fetched body of
at most 1000 bytes always yields the `failed` ("Invalid response") outcome and
never `success`, regardless of content, and writes no file; and a non-SVG body
that decodes to a width or height below the corresponding configured positive
minimum yields `too_small` carrying the observed `WxH`, with no file written. -/
theorem C2_size_and_dimension_policy (url : String) (page : Int) (folder url_hash : String)
    (minWidth minHeight : Int) (resp : HttpResponse) (decodeRes : Option (Nat × Nat))
    (width height : Nat) :
    (resp.content.length ≤ 1000 →
      (download_image url page folder url_hash minWidth minHeight
          (Except.ok resp) decodeRes).1.status = Status.failed ∧
      (download_image url page folder url_hash minWidth minHeight
          (Except.ok resp) decodeRes).1.info = "Invalid response" ∧
      (download_image url page folder url_hash minWidth minHeight
          (Except.ok resp) decodeRes).2 = none) ∧
    (resp.status_code = 200 → resp.content.length > 1000 → isSvgUrl url = false →
      decodeRes = some (width, height) →
      ((minWidth > 0 ∧ (width : Int) < minWidth) ∨
       (minHeight > 0 ∧ (height : Int) < minHeight)) →
      (download_image url page folder url_hash minWidth minHeight
          (Except.ok resp) decodeRes).1.status = Status.too_small ∧
      (download_image url page folder url_hash minWidth minHeight
          (Except.ok resp) decodeRes).1.info = toString width ++ "x" ++ toString height ∧
      (download_image url page folder url_hash minWidth minHeight
          (Except.ok resp) decodeRes).2 = none) := by
  constructor
  · intro h
    have h' : ¬(resp.status_code = 200 ∧ resp.content.length > 1000) := by omega
    simp [download_image, h']
  · intro hcode hlen hsvg hdec hdim
    subst hdec
    have hmin : minWidth > 0 ∨ minHeight > 0 := by
      rcases hdim with ⟨h1, _⟩ | ⟨h1, _⟩
      · exact Or.inl h1
      · exact Or.inr h1
    simp [download_image, checkDims, hcode, hlen, hsvg, hmin, hdim]

/-- Witness for C2 at concrete inputs: a 2-byte body yields `failed`, and a
1500-byte body decoding to 5x7 against `minWidth = 10` yields `too_small 5x7`. -/
theorem C2_size_and_dimension_policy_witness :
    ((download_image "http://a/x" 1 "f" "h" 0 0
        (Except.ok ⟨200, [3, 4]⟩) none).1.status = Status.failed ∧
     (download_image "http://a/x" 1 "f" "h" 0 0
        (Except.ok ⟨200, [3, 4]⟩) none).1.info = "Invalid response" ∧
     (download_image "http://a/x" 1 "f" "h" 0 0
        (Except.ok ⟨200, [3, 4]⟩) none).2 = none) ∧
    ((download_image "http://a/x" 1 "f" "h" 10 0
        (Except.ok ⟨200, List.replicate 1500 0⟩) (some (5, 7))).1.status = Status.too_small ∧
     (download_image "http://a/x" 1 "f" "h" 10 0
        (Except.ok ⟨200, List.replicate 1500 0⟩) (some (5, 7))).1.info
          = toString 5 ++ "x" ++ toString 7 ∧
     (download_image "http://a/x" 1 "f" "h" 10 0
        (Except.ok ⟨200, List.replicate 1500 0⟩) (some (5, 7))).2 = none) :=
  ⟨(C2_size_and_dimension_policy "http://a/x" 1 "f" "h" 0 0 ⟨200, [3, 4]⟩ none 5 7).1
      (by decide),
   (C2_size_and_dimension_policy "http://a/x" 1 "f" "h" 10 0
      ⟨200, List.replicate 1500 0⟩ (some (5, 7)) 5 7).2
      rfl (by simp only [List.length_replicate]; omega) (by decide) rfl (by decide)⟩

/-- C7: for a fetched body passing the HTTP and minimum-byte checks, a decode
failure (`Image.open` raised, `decodeRes = none`) skips the dimension check and
the item is written to disk and reported as `success` — a decode failure never
by itself yields `too_small`, `failed` or `error`. -/
theorem C7_decode_failure_leniency (url : String) (page : Int) (folder url_hash : String)
    (minWidth minHeight : Int) (resp : HttpResponse)
    (hcode : resp.status_code = 200) (hlen : resp.content.length > 1000) :
    (download_image url page folder url_hash minWidth minHeight
        (Except.ok resp) none).1.status = Status.success ∧
    (download_image url page folder url_hash minWidth minHeight
        (Except.ok resp) none).2
      = some ⟨folder, imageFilename page url_hash url, url_hash, resp.content⟩ := by
  simp [download_image, hcode, hlen, imageFilename, imageExt]

/-- Witness for C7: a 1500-byte non-SVG body with a failing decode and a
configured minimum width is written and reported as `success`. -/
theorem C7_decode_failure_leniency_witness :
    (download_image "http://a/x" 1 "f" "h" 10 10
        (Except.ok ⟨200, List.replicate 1500 0⟩) none).1.status = Status.success ∧
    (download_image "http://a/x" 1 "f" "h" 10 10
        (Except.ok ⟨200, List.replicate 1500 0⟩) none).2
      = some ⟨"f", imageFilename 1 "h" "http://a/x", "h", List.replicate 1500 0⟩ :=
  C7_decode_failure_leniency "http://a/x" 1 "f" "h" 10 10
    ⟨200, List.replicate 1500 0⟩ rfl (by simp only [List.length_replicate]; omega)

/-- C5 counterexample: the google variant's filename derivation
(src/google-images-scraper.py lines 32-43) maps a URL ending in `.png` to the
extension `.png`, which is neither `.svg` nor the default raster `.jpg` — so
it is false that no other extension is ever produced. -/
theorem C5_counterexample :
    g_imageExt "http://example.com/a.png" = ".png" ∧
    (".png" : String) ≠ ".svg" ∧ (".png" : String) ≠ ".jpg" := by
  refine ⟨by decide, by decide, by decide⟩

/-- C5 (amended): the forum scraper's derivation produces `.svg` exactly when
the URL indicates SVG and the single default `.jpg` in every other case; the
google-images variant additionally recognizes `.png` and `.gif`, but likewise
produces no extension outside its fixed four. -/
theorem C5_extension_normalization (url : String) :
    (imageExt url = ".svg" ↔ isSvgUrl url = true) ∧
    (imageExt url = ".svg" ∨ imageExt url = ".jpg") ∧
    (g_imageExt url = ".svg" ∨ g_imageExt url = ".png" ∨
     g_imageExt url = ".gif" ∨ g_imageExt url = ".jpg") := by
  refine ⟨?_, ?_, ?_⟩
  · unfold imageExt
    constructor
    · intro h
      by_contra hc
      rw [if_neg (by simpa using hc)] at h
      exact absurd h (by decide)
    · intro h
      rw [if_pos h]
  · unfold imageExt
    split
    · exact Or.inl rfl
    · exact Or.inr rfl
  · unfold g_imageExt
    repeat' split
    · exact Or.inl rfl
    · exact Or.inr (Or.inl rfl)
    · exact Or.inr (Or.inr (Or.inl rfl))
    · exact Or.inr (Or.inr (Or.inr rfl))

/-- C10: a thread URL that starts with neither `http://` nor `https://` makes
`process_thread` return the empty result `([], [], 0, 0)` immediately: no
directory is created, no page fetch is attempted, no file is written. -/
theorem C10_non_http_thread_url (env : Env) (threadUrl : String) (startPage endPage : Int)
    (minWidth minHeight : Int) (usePagination : Bool) (dirListing : List String) (fuel : Nat)
    (h1 : pyStartsWith threadUrl "http://" = false)
    (h2 : pyStartsWith threadUrl "https://" = false) :
    process_thread env threadUrl startPage endPage minWidth minHeight usePagination
        dirListing fuel = ⟨[], [], 0, 0, [], [], [], []⟩ := by
  simp [process_thread, h1, h2]

/-- Witness for C10: a scheme-less thread URL produces the empty result under
a concrete environment. -/
theorem C10_non_http_thread_url_witness :
    process_thread
        ⟨fun _ => Except.ok ⟨"t", []⟩, fun _ => Except.error "net", fun _ => none,
         fun u => u, fun _ => "dir"⟩
        "www.example.com/thread" 1 2 0 0 true [] 5 = ⟨[], [], 0, 0, [], [], [], []⟩ :=
  C10_non_http_thread_url
    ⟨fun _ => Except.ok ⟨"t", []⟩, fun _ => Except.error "net", fun _ => none,
     fun u => u, fun _ => "dir"⟩
    "www.example.com/thread" 1 2 0 0 true [] 5 (by decide) (by decide)

/-- C8: when the page-listing fetch of the selected page raises, the Page
Driver leaves the entire run state (Identity Index included) untouched,
records no Outcome for that page, advances the page counter by one and
continues the loop with the remaining pages — a failed page fetch is not
fatal to the run. -/
theorem C8_page_fetch_failure (env : Env) (ctx : Ctx) (fuel : Nat) (ds : DriverState)
    (page : Option Int) (msg : String)
    (hsel : pageSelect ctx ds.current_page = some page)
    (hfail : env.pageFetch page = Except.error msg) :
    runLoop env ctx (fuel + 1) ds
      = ((runLoop env ctx fuel ⟨ds.st, ds.current_page + 1, ds.previous_html⟩).1,
         PageTrace.fetchFailed page msg
           :: (runLoop env ctx fuel ⟨ds.st, ds.current_page + 1, ds.previous_html⟩).2) ∧
    outcomesOf [PageTrace.fetchFailed page msg] = [] := by
  constructor
  · simp [runLoop, hsel, hfail]
  · rfl

/-- Witness for C8: with every page-listing fetch raising, one loop iteration
from page 1 of a fixed range `[1, 3]` only appends a `fetchFailed` trace entry
and goes on from page 2 with the same run state. -/
theorem C8_page_fetch_failure_witness :
    runLoop
        ⟨fun _ => Except.error "boom", fun _ => Except.error "net", fun _ => none,
         fun u => u, fun _ => "dir"⟩
        ⟨true, 1, 3, "f", 0, 0⟩ 3 ⟨⟨[], [], [], 0, 0⟩, 1, none⟩
      = ((runLoop
            ⟨fun _ => Except.error "boom", fun _ => Except.error "net", fun _ => none,
             fun u => u, fun _ => "dir"⟩
            ⟨true, 1, 3, "f", 0, 0⟩ 2 ⟨⟨[], [], [], 0, 0⟩, 2, none⟩).1,
         PageTrace.fetchFailed (some 1) "boom"
           :: (runLoop
                ⟨fun _ => Except.error "boom", fun _ => Except.error "net", fun _ => none,
                 fun u => u, fun _ => "dir"⟩
                ⟨true, 1, 3, "f", 0, 0⟩ 2 ⟨⟨[], [], [], 0, 0⟩, 2, none⟩).2) ∧
    outcomesOf [PageTrace.fetchFailed (some 1) "boom"] = [] :=
  C8_page_fetch_failure
    ⟨fun _ => Except.error "boom", fun _ => Except.error "net", fun _ => none,
     fun u => u, fun _ => "dir"⟩
    ⟨true, 1, 3, "f", 0, 0⟩ 2 ⟨⟨[], [], [], 0, 0⟩, 1, none⟩ (some 1) "boom"
    (by decide) rfl

/-- Witness for C1 at a concrete run: identity hashing (injective), two
distinct candidate URLs on each of two fixed-range pages. -/
theorem C1_at_most_once_per_identifier_witness :
    Function.Injective wEnvA.hash ∧
    ((∀ h, successCount (outcomesOf (runLoop wEnvA wCtxA 3 wDsA).2) h ≤ 1) ∧
     (∀ h, h ∈ (runLoop wEnvA wCtxA 3 wDsA).1.st.downloaded_hashes ↔
         h ∈ wDsA.st.downloaded_hashes
           ∨ h ∈ successHashes (outcomesOf (runLoop wEnvA wCtxA 3 wDsA).2)) ∧
     (∀ h, h ∈ wDsA.st.downloaded_hashes →
         h ∈ (runLoop wEnvA wCtxA 3 wDsA).1.st.downloaded_hashes) ∧
     (∀ (st : RunState) (urls : List String), (prepareTasks wEnvA st urls).2
         = urls.filter fun u => ! decide (wEnvA.hash u ∈ st.downloaded_hashes))) :=
  ⟨fun a b hx => hx,
   C1_at_most_once_per_identifier wEnvA wCtxA 3 wDsA (fun a b hx => hx)
     (by intro p d hd; cases hd; decide)⟩

/-- Witness for C3 at a concrete double run: a single always-succeeding
candidate whose identifier is the well-formed `h`; the second run writes no
file. -/
theorem C3_seed_write_roundtrip_witness :
    (∀ u, validHashStr (wEnvB.hash u)) ∧
    (process_thread wEnvB "http://a/t" 1 1 0 0 true
        ((process_thread wEnvB "http://a/t" 1 1 0 0 true [] 3).filesWritten.map
          fun w => w.filename) 3).filesWritten = [] :=
  ⟨fun u => by show validHashStr "h"; decide,
   (C3_seed_write_roundtrip wEnvB "http://a/t" 1 1 0 0 true 3
     fun u => by show validHashStr "h"; decide).1⟩

/-- Witness for C4: with the page text family `t1, t2, t2, ...`, the loop
processes pages 1 and 2 once each and stops right after fetching page 3. -/
theorem C4_open_ended_termination_witness :
    traceTags (runLoop wEnvC wCtxC 3 ⟨⟨[], [], [], 0, 0⟩, 1, none⟩).2
      = ((intRange 1 ((3 : Int) - 1).toNat).map fun p => (2, some p)) ++ [(1, some 3)] :=
  C4_open_ended_termination wEnvC wCtxC ⟨[], [], [], 0, 0⟩ 1 3 wPage (by decide) (by decide)
    (fun p _ _ => rfl) (by decide)
    (by
      intro j h1 h2
      have hj : j = 2 := by omega
      subst hj
      decide)
    3 (by decide)

/-- Witness for C6 (amended), google side: a concrete duplicate-skipped
candidate gets an `already downloaded` audit row and bumps the skip tally. -/
theorem C6_audit_rows_witness :
    wEnvB.hash "http://a/z" ∈ (⟨["h"], [], [], 0, 0⟩ : RunState).downloaded_hashes ∧
    ((g_step wEnvB 0 0 "f" ⟨["h"], [], [], 0, 0⟩ 2 "http://a/z").csv_rows
        = (⟨["h"], [], [], 0, 0⟩ : RunState).csv_rows
            ++ [("http://a/z", "", "img_" ++ pad4 2 ++ "_" ++ wEnvB.hash "http://a/z",
                "already downloaded")] ∧
     (g_step wEnvB 0 0 "f" ⟨["h"], [], [], 0, 0⟩ 2 "http://a/z").skipped_count
        = (⟨["h"], [], [], 0, 0⟩ : RunState).skipped_count + 1) :=
  ⟨by decide,
   (C6_audit_rows wEnvB ⟨true, 1, 1, "dir", 0, 0⟩ 0 ⟨⟨[], [], [], 0, 0⟩, 1, none⟩
      0 0 "f" ⟨["h"], [], [], 0, 0⟩ 2 "http://a/z").2.2 (by decide)⟩

end Scraper
